import Mathlib

/-!
Verification of the Silver.com scraper (`src/main.py`) against its
natural-language specification.

Python strings are modelled as `List Char` (`Str`).  Machine floats are
modelled as exact rationals `ℚ`: every price literal appearing in the
claims is exactly representable, and the code only ever parses decimal
digit strings.  JSON / HTML payloads fetched from the network are
modelled as abstract structures holding exactly the query results the
Python code reads out of them (one field per selector / key access).
Fallible operations return `Option`.
-/

abbrev Str := List Char

/-- Shorthand turning a Lean string literal into the `List Char` model. -/
def cs (s : String) : Str := s.toList

/-- Python truthiness of an optional string (`None` and `''` are falsy). -/
def truthyS : Option Str → Bool
  | none => false
  | some s => !s.isEmpty

/-- Python truthiness of an optional number (`None` and `0` are falsy). -/
def truthyQ : Option ℚ → Bool
  | none => false
  | some q => q != 0

/-- Python `a or b` on two optional strings. -/
def pyOrS (a b : Option Str) : Option Str := if truthyS a then a else b

/-- Python `a or b` on two optional numbers. -/
def pyOrQ (a b : Option ℚ) : Option ℚ := if truthyQ a then a else b

/-- Python `a or b` on two plain strings. -/
def pyOrStr (a b : Str) : Str := if a.isEmpty then b else a

/-- Model of `str.startswith`, `startsW p l`: / pattern-matching at the head:
`p` is a leading part of `l`. -/
def startsW : Str → Str → Bool
  | [], _ => true
  | _ :: _, [] => false
  | a :: p, b :: l => a == b && startsW p l

/-- Python's substring test `p in l` (contiguous occurrence). -/
def hasSub (p : Str) : Str → Bool
  | [] => startsW p []
  | l@(_ :: t) => startsW p l || hasSub p t

/-- Split at the first occurrence of character `c`; `none` if absent. -/
def splitFirst (c : Char) : Str → Option (Str × Str)
  | [] => none
  | a :: l =>
    if a = c then some ([], l)
    else (splitFirst c l).map (fun q => (a :: q.1, q.2))

theorem splitFirst_snd_len {c : Char} :
    ∀ {l a b : Str}, splitFirst c l = some (a, b) → b.length < l.length := by
  intro l
  induction l with
  | nil => intro a b h; simp [splitFirst] at h
  | cons x xs ih =>
    intro a b h
    simp only [splitFirst] at h
    split at h
    · cases h; simp
    · cases h' : splitFirst c xs with
      | none => rw [h'] at h; simp at h
      | some q =>
        rw [h'] at h
        simp only [Option.map_some'] at h
        cases h
        have := ih (a := q.1) (b := q.2) (by rw [h'])
        simpa using Nat.lt_succ_of_lt this

/-- Python `str.split(c)`, via an accumulator for the current piece. -/
def splitAux (sep : Char) : Str → Str → List Str
  | [], acc => [acc.reverse]
  | c :: r, acc =>
    if c = sep then acc.reverse :: splitAux sep r []
    else splitAux sep r (c :: acc)

/-- Python `str.split('/')`. -/
def splitSlash (l : Str) : List Str := splitAux '/' l []

/-- ASCII lower-casing of one character, the model of Python `str.lower`
on the code's ASCII inputs. -/
def lowerC (c : Char) : Char :=
  if 'A' ≤ c ∧ c ≤ 'Z' then Char.ofNat (c.toNat + 32) else c

/-- ASCII lower-casing of a string. -/
def lowerStr (l : Str) : Str := l.map lowerC

/-- Python `str.strip('/')` — drop leading and trailing slashes. -/
def stripSlashes (l : Str) : Str :=
  ((l.dropWhile (· = '/')).reverse.dropWhile (· = '/')).reverse

/-- Python `url.rstrip('/')` — drop trailing slashes (the dedup key
normalisation used by the orchestrator). -/
def rstripSlash (l : Str) : Str :=
  (l.reverse.dropWhile (· = '/')).reverse

/-- Python `str.strip()` — drop surrounding whitespace. -/
def pyStrip (l : Str) : Str :=
  ((l.dropWhile Char.isWhitespace).reverse.dropWhile Char.isWhitespace).reverse

/-! ### URL parsing (model of `urllib.parse.urlparse` on the code's inputs)

Only the components the scraper reads are modelled: scheme, network
location, path and query.  Fragments are stripped; percent-decoding and
non-ASCII case folding are not modelled (no claim depends on them). -/

structure UrlParts where
  scheme : Str
  netloc : Str
  path : Str
  query : Str
deriving DecidableEq

def notDelim (c : Char) : Bool := !(c == '/' || c == '?' || c == '#')

def schemeOK (s : Str) : Bool :=
  match s with
  | [] => false
  | c :: _ => c.isAlpha && s.all (fun x => x.isAlphanum || x == '+' || x == '-' || x == '.')

def urlparse (u : Str) : UrlParts :=
  match splitFirst ':' u with
  | some (sch, rest) =>
    if schemeOK sch then
      if startsW (cs ("//")) rest then
        let r2 := rest.drop 2
        let netloc := r2.takeWhile notDelim
        let tail := r2.dropWhile notDelim
        let tail2 := tail.takeWhile (fun c => c != '#')
        ⟨lowerStr sch, netloc, tail2.takeWhile (fun c => c != '?'),
          ((splitFirst '?' tail2).map (fun q => q.2)).getD []⟩
      else
        let tail2 := rest.takeWhile (fun c => c != '#')
        ⟨lowerStr sch, [], tail2.takeWhile (fun c => c != '?'),
          ((splitFirst '?' tail2).map (fun q => q.2)).getD []⟩
    else
      let tail2 := u.takeWhile (fun c => c != '#')
      ⟨[], [], tail2.takeWhile (fun c => c != '?'),
        ((splitFirst '?' tail2).map (fun q => q.2)).getD []⟩
  | none =>
    let tail2 := u.takeWhile (fun c => c != '#')
    ⟨[], [], tail2.takeWhile (fun c => c != '?'),
      ((splitFirst '?' tail2).map (fun q => q.2)).getD []⟩

/-- Model of `parsed.hostname`: the netloc after any userinfo, before any port,
lower-cased. -/
def hostOf (p : UrlParts) : Str :=
  let afterAt := ((splitFirst '@' p.netloc).map (fun q => q.2)).getD p.netloc
  lowerStr (afterAt.takeWhile (fun c => c != ':'))

/-! ### Site constants (from the top of `main.py`) -/

def SITE_HOSTS : List Str := [cs ("silver.com"), cs ("www.silver.com")]

def BASE_URL : Str := cs ("https://www.silver.com")

def SKIP_PATH_SEGMENTS : List Str :=
  [cs ("/about/"), cs ("/contact/"), cs ("/faq/"), cs ("/help/"), cs ("/blog/"),
   cs ("/my-account/"), cs ("/cart/"), cs ("/checkout/"), cs ("/shipping/"),
   cs ("/privacy/"), cs ("/terms/"), cs ("/wp-admin/"), cs ("/wp-content/")]

def topCategories : List Str :=
  [cs ("silver-bullion"), cs ("gold-bullion"), cs ("platinum-bullion"),
   cs ("palladium-bullion"), cs ("silver-coins"), cs ("gold-coins"),
   cs ("silver-bars"), cs ("gold-bars"), cs ("silver-rounds"), cs ("product-category")]

def AVAILABILITY_STATES : List Str :=
  [cs ("In Stock"), cs ("Out of Stock"), cs ("Pre-Order"), cs ("Sold Out"),
   cs ("Coming Soon"), cs ("Discontinued")]

def MAX_DESCRIPTION_LENGTH : Nat := 2000

/-! ### URL classifier (`validate_url`, `is_search_url`, `is_category_url`,
`is_product_url` and the dispatch order of `main`) -/

def validate_url (u : Str) : Bool :=
  let p := urlparse u
  (p.scheme == cs ("http") || p.scheme == cs ("https")) && SITE_HOSTS.contains (hostOf p)

def is_search_url (u : Str) : Bool :=
  hasSub (cs ("?s=")) u || hasSub (cs ("&s=")) u || hasSub (cs ("/search")) u

def is_category_url (u : Str) : Bool :=
  if is_search_url u then false
  else
    let path := stripSlashes (lowerStr (urlparse u).path)
    if path.isEmpty then true
    else
      let segments := (splitSlash path).filter (fun s => !s.isEmpty)
      if (match segments with | s :: _ => topCategories.contains s | [] => false) then true
      else if hasSub (cs ("product-category")) path then true
      else if segments.contains (cs ("page")) then true
      else false

def is_product_url (u : Str) : Bool :=
  if !validate_url u then false
  else if is_search_url u then false
  else if SKIP_PATH_SEGMENTS.any (fun sk => hasSub sk u) then false
  else
    let path := stripSlashes (urlparse u).path
    if path.isEmpty then false
    else if is_category_url u then false
    else
      match (splitSlash path).filter (fun s => !s.isEmpty) with
      | [seg] => !seg.contains '.'
      | _ => false

/-- The classification outcomes, in the dispatch order of `main`
(lines 546-559): search query, category listing, product page, or the
fall-back that treats an unclassifiable URL as a listing.  URLs failing
`validate_url` are discarded before dispatch. -/
inductive ClassifiedInput
  | invalid
  | searchQuery
  | listing
  | product
  | unknownListing
deriving DecidableEq

def classify (u : Str) : ClassifiedInput :=
  if !validate_url u then .invalid
  else if is_search_url u then .searchQuery
  else if is_category_url u then .listing
  else if is_product_url u then .product
  else .unknownListing

/-! ### Price parsing (`parse_price`, regex `\$?([\d,]+\.?\d*)`) -/

def digitComma (c : Char) : Bool := c.isDigit || c == ','

/-- Match `[\d,]+\.?\d*` at the current position; on success return the
matched text and the remaining input. -/
def amountCore (l : Str) : Option (Str × Str) :=
  let run := l.takeWhile digitComma
  if run.isEmpty then none
  else
    match l.drop run.length with
    | '.' :: r2 =>
      let ds := r2.takeWhile Char.isDigit
      some (run ++ '.' :: ds, r2.drop ds.length)
    | rest => some (run, rest)

theorem amountCore_rem_len {l g rem : Str} (h : amountCore l = some (g, rem)) :
    rem.length ≤ l.length := by
  unfold amountCore at h
  dsimp only at h
  split at h
  · simp at h
  · split at h
    · rename_i r2 heq
      cases h
      have h2 : (l.drop (l.takeWhile digitComma).length).length = l.length - (l.takeWhile digitComma).length :=
        List.length_drop _ _
      rw [heq] at h2
      simp only [List.length_cons] at h2
      have := List.length_drop (r2.takeWhile Char.isDigit).length r2
      omega
    · cases h
      have := List.length_drop (l.takeWhile digitComma).length l
      omega

/-- Model of `re.search(r'\$?([\d,]+\.?\d*)', s)`: the captured group of the
left-most match.  The scan tries, at each position, first the branch
with a literal `$`, then without. -/
def firstAmount : Str → Option Str
  | [] => none
  | '$' :: rest =>
    match amountCore rest with
    | some (g, _) => some g
    | none => firstAmount rest
  | c :: rest =>
    if digitComma c then (amountCore (c :: rest)).map (fun q => q.1)
    else firstAmount rest

def natOfDigits (l : Str) : ℕ := l.foldl (fun n c => n * 10 + (c.toNat - 48)) 0

/-- Python `float(...)` restricted to the unsigned decimal shapes the
scraper feeds it (`digits`, `digits.`, `.digits`, `digits.digits`);
`''` and `'.'` fail, matching `ValueError`. -/
def pyFloat (l : Str) : Option ℚ :=
  let ip := l.takeWhile Char.isDigit
  match l.drop ip.length with
  | [] => if ip.isEmpty then none else some (natOfDigits ip)
  | '.' :: frac =>
    if frac.all Char.isDigit ∧ (¬ip.isEmpty ∨ ¬frac.isEmpty) then
      some ((natOfDigits ip : ℚ) + (natOfDigits frac : ℚ) / (10 : ℚ) ^ frac.length)
    else none
  | _ => none

/-- Python `float(...)` with an optional sign, for `float(content)` on
machine-readable price attributes. -/
def pyFloatSigned (l : Str) : Option ℚ :=
  match l with
  | '-' :: r => (pyFloat r).map (fun q => -q)
  | '+' :: r => pyFloat r
  | r => pyFloat r

def parse_price (l : Str) : Option ℚ :=
  if l.isEmpty then none
  else
    match firstAmount l with
    | none => none
    | some g => pyFloat (g.filter (fun c => c != ','))

/-- Variant of `parse_price` applied to a possibly-`None` argument
(`parse_price(product.get('price'))`): `None` is falsy like `''`. -/
def parse_priceO (o : Option Str) : Option ℚ := parse_price (o.getD [])

/-! ### Dollar formatting (`f"${x:,.2f}"`), modelled as decimal rounding
to cents with thousands grouping.  (CPython formats the binary double;
on the two-decimal catalogue prices this agrees with exact decimal
rounding.) -/

def pad2 (n : ℕ) : Str := if n < 10 then '0' :: Nat.toDigits 10 n else Nat.toDigits 10 n

def group3Rev : Str → Str
  | a :: b :: c :: d :: rest => a :: b :: c :: ',' :: group3Rev (d :: rest)
  | l => l

def fmtDollar (q : ℚ) : Str :=
  let a := if q < 0 then -q else q
  let cents := (a * 100 + 1 / 2).floor.toNat
  '$' :: ((if q < 0 then ['-'] else []) ++
    (group3Rev (Nat.toDigits 10 (cents / 100)).reverse).reverse ++
    '.' :: pad2 (cents % 100))

/-- Model of `re.findall(r'\$[\d,]+\.?\d*', s)`: all non-overlapping matches,
dollar sign included.  The input length bounds the number of scan steps,
so it doubles as structural fuel. -/
def fdgAux : ℕ → Str → List Str
  | 0, _ => []
  | _ + 1, [] => []
  | fuel + 1, '$' :: rest =>
    match amountCore rest with
    | some (g, rem) => ('$' :: g) :: fdgAux fuel rem
    | none => fdgAux fuel rest
  | fuel + 1, _ :: rest => fdgAux fuel rest

def findDollarGroups (l : Str) : List Str := fdgAux l.length l

/-- Model of `prices[-1] if prices else text`: the last currency fragment of a
multi-price blob (struck-through original plus sale price). -/
def lastDollar (t : Str) : Str := ((findDollarGroups t).getLast?).getD t

def countChar (c : Char) (l : Str) : ℕ := (l.filter (fun x => x == c)).length

/-! ### `urljoin` (modelled for the shapes the scraper produces:
absolute URLs, scheme-relative, root-relative, bare-relative and empty
href values; `..` segments are not folded). -/

def originOf (base : Str) : Str :=
  let p := urlparse base
  p.scheme ++ cs ("://") ++ p.netloc

def dirOf (base : Str) : Str :=
  let p := urlparse base
  let upToSlash := (p.path.reverse.dropWhile (fun c => c != '/')).reverse
  originOf base ++ (if upToSlash.isEmpty then ['/'] else upToSlash)

def urljoin (base rel : Str) : Str :=
  if rel.isEmpty then base
  else if startsW (cs ("http://")) rel || startsW (cs ("https://")) rel then rel
  else if startsW (cs ("//")) rel then (urlparse base).scheme ++ ':' :: rel
  else if startsW (cs ("/")) rel then originOf base ++ rel
  else dirOf base ++ rel

/-! ### Data model: candidate and emitted records

`Candidate` is the dict built by the Search-API strategy
(`search_searchspring`) and the listing strategy
(`extract_listing_products`); `none` models a missing key (the listing
strategy never sets `priceNumeric`, `sku`, `description` or
`availability`, so `dict.get` on those returns `None`).  `ProductRecord`
is the dict passed to the sink (`Actor.push_data`); the wall-clock
`scrapedAt` stamp is not modelled. -/

structure Candidate where
  url : Str
  name : Str
  price : Option Str
  priceNumeric : Option ℚ
  image : Option Str
  sku : Option Str
  description : Option Str
  availability : Option Str
deriving DecidableEq

structure ProductRecord where
  url : Str
  name : Option Str
  price : Option Str
  priceNumeric : Option ℚ
  imageUrl : Option Str
  sku : Option Str
  availability : Option Str
  description : Option Str
deriving DecidableEq

/-- The dict returned by `extract_product_details`.  `availability` is a
plain string because the code always assigns one. -/
structure Details where
  name : Option Str
  price : Option Str
  priceNumeric : Option ℚ
  imageUrl : Option Str
  sku : Option Str
  availability : Str
  description : Option Str
deriving DecidableEq

/-! ### Product-detail extraction (`extract_product_details`)

The parsed page (`BeautifulSoup`) is modelled as a record holding, for
each selector the function runs, the element it would find: presence is
an `Option`, and each element carries exactly the attributes/text read
from it.  `get(attr)` with no default is an `Option Str`; `get(attr,'')`
is a `Str`. -/

structure PriceEl where
  content : Option Str
  text : Str
deriving DecidableEq

structure SkuEl where
  content : Option Str
  text : Str
deriving DecidableEq

structure AvailEl where
  content : Option Str
  href : Option Str
  text : Str
deriving DecidableEq

structure DetailSoup where
  /-- Result of `select_one('h1')`, its stripped text. -/
  h1 : Option Str
  /-- Result of `select_one('meta[itemprop="price"], ...')`, its `content` attr
  (`get('content','')`, so element present with missing attr is `some []`). -/
  metaPriceContent : Option Str
  /-- Result of `select_one('[itemprop="price"], .woocommerce-Price-amount, ...')`. -/
  priceEl : Option PriceEl
  /-- Result of `select_one('meta[property="og:image"]')`, its `content` attr. -/
  ogImageContent : Option (Option Str)
  /-- Result of `select_one('.woocommerce-product-gallery img, img.wp-post-image')`,
  its `src` attr. -/
  galleryImgSrc : Option (Option Str)
  /-- Result of `select_one('[itemprop="sku"], .sku')`. -/
  skuEl : Option SkuEl
  /-- Result of `select_one('[itemprop="availability"]')`. -/
  availEl : Option AvailEl
  /-- Result of `soup.get_text()`. -/
  pageText : Str
  /-- the short-description element, its stripped text. -/
  descText : Option Str
deriving DecidableEq

def extract_product_details (s : DetailSoup) : Details :=
  let metaPair : Option Str × Option ℚ :=
    match s.metaPriceContent with
    | some c =>
      if !c.isEmpty then
        match pyFloatSigned c with
        | some q => (some (fmtDollar q), some q)
        | none => (none, none)
      else (none, none)
    | none => (none, none)
  let pricePair : Option Str × Option ℚ :=
    if truthyS metaPair.1 then metaPair
    else
      match s.priceEl with
      | none => metaPair
      | some el =>
        let contentPair : Option Str × Option ℚ :=
          match el.content with
          | some c =>
            if !c.isEmpty then
              match pyFloatSigned c with
              | some q => (some (fmtDollar q), some q)
              | none => metaPair
            else metaPair
          | none => metaPair
        if truthyS contentPair.1 then contentPair
        else
          let t := el.text
          let t2 := if !t.isEmpty ∧ countChar '$' t > 1 then lastDollar t else t
          (some t2, parse_price t2)
  let imageUrl :=
    let i1 := match s.ogImageContent with
      | some c => c
      | none => none
    if truthyS i1 then i1
    else match s.galleryImgSrc with
      | some c => c
      | none => none
  let sku := s.skuEl.map (fun e => if truthyS e.content then e.content.getD [] else e.text)
  let availability :=
    let fromEl :=
      match s.availEl with
      | some e =>
        let availText := pyOrStr (e.content.getD []) (pyOrStr (e.href.getD []) e.text)
        if hasSub (cs ("InStock")) availText then cs ("In Stock")
        else if hasSub (cs ("OutOfStock")) availText then cs ("Out of Stock")
        else if hasSub (cs ("PreOrder")) availText then cs ("Pre-Order")
        else cs ("Unknown")
      | none => cs ("Unknown")
    if fromEl = cs ("Unknown") then
      match AVAILABILITY_STATES.find? (fun st => hasSub st s.pageText) with
      | some st => st
      | none => cs ("Unknown")
    else fromEl
  let description := s.descText.map (fun t => t.take MAX_DESCRIPTION_LENGTH)
  { name := s.h1
    price := match pricePair.1 with
      | some t => if !t.isEmpty ∧ t.contains '$' then some t else none
      | none => none
    priceNumeric :=
      if truthyQ pricePair.2 then pricePair.2
      else if truthyS pricePair.1 then parse_price (pricePair.1.getD []) else none
    imageUrl := imageUrl
    sku := sku
    availability := availability
    description := description }

/-! ### Listing-page extraction (`extract_listing_products`) -/

/-- One `.product` / `.type-product` card block: the selector results the
code reads from it. -/
structure Card where
  /-- Result of `select_one('a[href]')` with its `href` value (`get('href','')`). -/
  href : Option Str
  /-- Result of `link_el.get_text(strip=True)`. -/
  anchorText : Str
  /-- Result of `select_one('.woocommerce-loop-product__title, h2, h3')`, stripped text. -/
  titleText : Option Str
  /-- the price element's stripped text. -/
  priceText : Option Str
  /-- Result of `select_one('img')` with its `src` and `data-src` attrs. -/
  img : Option (Option Str × Option Str)
deriving DecidableEq

def listingGo (base : Str) : List Card → List Str → List Candidate
  | [], _ => []
  | c :: rest, seen =>
    match c.href with
    | none => listingGo base rest seen
    | some h =>
      let url := urljoin base h
      if url ∈ seen ∨ validate_url url = false then listingGo base rest seen
      else
        let name := match c.titleText with
          | some t => t
          | none => c.anchorText
        let price := match c.priceText with
          | some t => some (if !t.isEmpty ∧ countChar '$' t > 1 then lastDollar t else t)
          | none => none
        let image := match c.img with
          | some (sr, d) => if truthyS sr then sr else d
          | none => none
        if !name.isEmpty ∧ name.length > 3 then
          { url := url, name := name, price := price, priceNumeric := none,
            image := image, sku := none, description := none,
            availability := none } :: listingGo base rest (url :: seen)
        else listingGo base rest (url :: seen)

def extract_listing_products (cards : List Card) (base : Str) : List Candidate :=
  listingGo base cards []

/-! ### Pagination walker (`get_next_page_url`) and the listing page soup -/

structure ListingSoup where
  cards : List Card
  /-- Result of `select_one('.woocommerce-pagination a.next, ...')` with its
  `href` value (`get('href','')`). -/
  nextAnchorHref : Option Str
deriving DecidableEq

def get_next_page_url (pg : ListingSoup) (base : Str) : Option Str :=
  pg.nextAnchorHref.map (fun h => urljoin base h)

/-! ### Search-API strategy (`search_searchspring`, per-item mapping)

A SearchSpring result item is modelled by the keys the code reads.
Numeric JSON fields are `Option ℚ`; fields that may be a JSON bool or
string use `StockVal`; `description` may be a string or a list. -/

inductive StockVal
  | absent
  | bval (b : Bool)
  | txt (s : Str)
deriving DecidableEq

inductive DescVal
  | absent
  | txt (s : Str)
  | lst (l : List Str)
deriving DecidableEq

def truthyStock : StockVal → Bool
  | .absent => false
  | .bval b => b
  | .txt s => !s.isEmpty

def stockOr (a b : StockVal) : StockVal := if truthyStock a then a else b

def truthyDesc : DescVal → Bool
  | .absent => false
  | .txt s => !s.isEmpty
  | .lst l => !l.isEmpty

structure SSItem where
  url : Option Str
  product_url : Option Str
  name : Option Str
  title : Option Str
  price : Option ℚ
  sale_price : Option ℚ
  thumbnailImageUrl : Option Str
  imageUrl : Option Str
  image : Option Str
  /-- Value of `r.get('sku','')`; non-string JSON values are modelled by their
  `str()` rendering, which is all the code uses. -/
  sku : Option Str
  uid : Option Str
  description : DescVal
  short_description : DescVal
  ss_in_stock : StockVal
  in_stock : StockVal
  availability : StockVal
deriving DecidableEq

/-- Model of `BeautifulSoup(x,'html.parser').get_text(strip=True)` on small HTML
fragments: tags removed, surrounding whitespace stripped. -/
def dropToGt : Str → Str
  | [] => []
  | c :: r => if c = '>' then r else dropToGt r

theorem dropToGt_len : ∀ l : Str, (dropToGt l).length ≤ l.length := by
  intro l
  induction l with
  | nil => simp [dropToGt]
  | cons c r ih =>
    by_cases h : c = '>'
    · simp [dropToGt, h]
    · simp only [dropToGt, h, if_false]
      exact Nat.le_succ_of_le ih

def stripTagsF : ℕ → Str → Str
  | 0, _ => []
  | _ + 1, [] => []
  | fuel + 1, c :: r => if c = '<' then stripTagsF fuel (dropToGt r) else c :: stripTagsF fuel r

def stripTags (l : Str) : Str := stripTagsF l.length l

/-- The per-item body of `search_searchspring`'s result loop
(lines 116-157): `none` when the item is dropped for lacking a URL or a
name. -/
def searchItemRecord (r : SSItem) : Option Candidate :=
  let url0 := pyOrStr (r.url.getD []) (r.product_url.getD [])
  let url :=
    if !url0.isEmpty ∧ ¬startsW (cs ("http")) url0 then
      if startsW (cs ("/")) url0 then BASE_URL ++ url0 else BASE_URL ++ '/' :: url0
    else url0
  let name := pyOrStr (r.name.getD []) (r.title.getD [])
  let priceVal : Option ℚ :=
    if truthyQ r.price then r.price else r.sale_price
  let priceText : Option Str :=
    if truthyQ priceVal then some (fmtDollar (priceVal.getD 0)) else none
  let image0 := pyOrStr (r.thumbnailImageUrl.getD [])
    (pyOrStr (r.imageUrl.getD []) (r.image.getD []))
  let image :=
    if !image0.isEmpty ∧ ¬startsW (cs ("http")) image0 then BASE_URL ++ image0 else image0
  let sku0 := pyOrStr (r.sku.getD []) (r.uid.getD [])
  let d1 := if truthyDesc r.description then r.description else r.short_description
  let d2 : Str :=
    match d1 with
    | .lst l => match l with | x :: _ => x | [] => []
    | .txt s => s
    | .absent => []
  let d3 := if !d2.isEmpty then (pyStrip (stripTags d2)).take MAX_DESCRIPTION_LENGTH else d2
  let availability : Str :=
    match stockOr r.ss_in_stock (stockOr r.in_stock r.availability) with
    | .bval b => if b then cs ("In Stock") else cs ("Out of Stock")
    | .txt s =>
      if !s.isEmpty ∧ (lowerStr s = cs ("0") ∨ lowerStr s = cs ("false") ∨
          lowerStr s = cs ("no") ∨ lowerStr s = cs ("out")) then cs ("Out of Stock")
      else cs ("In Stock")
    | .absent => cs ("In Stock")
  if !url.isEmpty ∧ !name.isEmpty then
    some { url := url
           name := name
           price := priceText
           priceNumeric := if truthyQ priceVal then priceVal else none
           image := if !image.isEmpty then some image else none
           sku := if !sku0.isEmpty then some sku0 else none
           description := if !d3.isEmpty then some d3 else none
           availability := some availability }
  else none

/-- The candidate list produced from one page of parsed SearchSpring
results. -/
def searchspring_products (rs : List SSItem) : List Candidate :=
  rs.filterMap searchItemRecord

/-! ### Emitted-record builders (the `Actor.push_data` dicts)

`u` is the normalised product URL (`prod_url`), `d` the detail-page
dict, `p` the index-sourced candidate. -/

/-- Record of `scrape_search`, detail fetch succeeded (lines 329-339). -/
def mergeSearch (u : Str) (d : Details) (p : Candidate) : ProductRecord :=
  { url := u
    name := some (if truthyS d.name then d.name.getD [] else p.name)
    price := pyOrS d.price p.price
    priceNumeric := pyOrQ d.priceNumeric p.priceNumeric
    imageUrl := pyOrS d.imageUrl p.image
    sku := pyOrS d.sku p.sku
    availability := some d.availability
    description := pyOrS d.description p.description }

/-- Record of `scrape_search`, detail fetch failed or non-200 (lines 342-352 and
355-365): the API-sourced record as-is. -/
def apiFallback (u : Str) (p : Candidate) : ProductRecord :=
  { url := u
    name := some p.name
    price := p.price
    priceNumeric := p.priceNumeric
    imageUrl := p.image
    sku := p.sku
    availability := some (p.availability.getD (cs ("In Stock")))
    description := p.description }

/-- Record of `scrape_listing`, detail fetch succeeded (lines 407-417). -/
def mergeListing (u : Str) (d : Details) (p : Candidate) : ProductRecord :=
  { url := u
    name := some (if truthyS d.name then d.name.getD [] else p.name)
    price := pyOrS d.price p.price
    priceNumeric := pyOrQ d.priceNumeric (parse_priceO p.price)
    imageUrl := pyOrS d.imageUrl p.image
    sku := d.sku
    availability := some d.availability
    description := d.description }

/-- Record of `scrape_listing`, detail fetch returned non-200 (lines 420-430). -/
def listingFallback (u : Str) (p : Candidate) : ProductRecord :=
  { url := u
    name := some p.name
    price := p.price
    priceNumeric := parse_priceO p.price
    imageUrl := p.image
    sku := none
    availability := some (cs ("Unknown"))
    description := none }

/-- Record of `scrape_product` (lines 467-477). -/
def productRec (u : Str) (d : Details) : ProductRecord :=
  { url := u
    name := d.name
    price := d.price
    priceNumeric := d.priceNumeric
    imageUrl := d.imageUrl
    sku := d.sku
    availability := some d.availability
    description := d.description }

/-! ### Crawl orchestrator

The network is an injected environment: `detail u` is the outcome of
`http.get` on a product URL (the parsed page on success),
`searchPage q size page` the candidate list `search_searchspring`
returns (its own error handling already yields `[]` on failures), and
`listing u` the outcome of fetching a listing URL.  The global mutable
run state (`products_scraped`, `scraped_urls`, the sink) is an explicit
`CrawlState`.  The fields `detailFetches`, `listingFetches`,
`searchRequests` and `failedListingDetails` are ghost audit traces
recording, without affecting behaviour, which network calls were issued
and how often the listing loop's exception path ran. -/

inductive DetailOutcome
  | ok (page : DetailSoup)
  | httpError (code : ℕ)
  | transportError
deriving DecidableEq

inductive ListingOutcome
  | ok (page : ListingSoup)
  | httpError (code : ℕ)
  | transportError
deriving DecidableEq

structure Env where
  detail : Str → DetailOutcome
  searchPage : Str → ℕ → ℕ → List Candidate
  listing : Str → ListingOutcome

structure SearchReq where
  page : ℕ
  size : ℕ
  countBefore : ℕ
deriving DecidableEq

structure CrawlState where
  count : ℕ
  scrapedUrls : List Str
  emitted : List ProductRecord
  detailFetches : List Str
  listingFetches : List Str
  searchRequests : List SearchReq
  failedListingDetails : ℕ
deriving DecidableEq

def initState : CrawlState :=
  { count := 0, scrapedUrls := [], emitted := [], detailFetches := [],
    listingFetches := [], searchRequests := [], failedListingDetails := 0 }

def pushRec (st : CrawlState) (r : ProductRecord) : CrawlState :=
  { st with emitted := st.emitted ++ [r] }

/-- The candidate loop of `scrape_search` (lines 315-368): quota check,
dedup, detail fetch, emit on every outcome, count increment. -/
def searchCandidates (env : Env) (max : ℕ) : List Candidate → CrawlState → CrawlState
  | [], st => st
  | p :: rest, st =>
    if st.count ≥ max then st
    else
      let u := rstripSlash p.url
      if u ∈ st.scrapedUrls then searchCandidates env max rest st
      else
        let st1 := { st with scrapedUrls := u :: st.scrapedUrls,
                             detailFetches := st.detailFetches ++ [u] }
        let st2 :=
          match env.detail u with
          | .ok page => pushRec st1 (mergeSearch u (extract_product_details page) p)
          | .httpError _ => pushRec st1 (apiFallback u p)
          | .transportError => pushRec st1 (apiFallback u p)
        searchCandidates env max rest { st2 with count := st2.count + 1 }

/-- The pagination loop of `scrape_search` (lines 307-371): page size
recomputed as `min(48, max_items - products_scraped)` before each
request, page cursor advanced by one, stop on an empty page or quota. -/
def searchLoop (env : Env) (q : Str) (max : ℕ) : ℕ → ℕ → CrawlState → CrawlState
  | 0, _, st => st
  | fuel + 1, page, st =>
    if st.count < max then
      let rpp := min 48 (max - st.count)
      let st0 := { st with searchRequests :=
        st.searchRequests ++ [{ page := page, size := rpp, countBefore := st.count }] }
      let prods := env.searchPage q rpp page
      if prods.isEmpty then st0
      else searchLoop env q max fuel (page + 1) (searchCandidates env max prods st0)
    else st

def scrape_search (env : Env) (q : Str) (max fuel : ℕ) (st : CrawlState) : CrawlState :=
  searchLoop env q max fuel 1 st

/-- The candidate loop of `scrape_listing` (lines 394-435): on a
transport error nothing is emitted but `products_scraped` is still
incremented (the increment sits outside the `try`). -/
def listingCandidates (env : Env) (max : ℕ) : List Candidate → CrawlState → CrawlState
  | [], st => st
  | p :: rest, st =>
    if st.count ≥ max then st
    else
      let u := rstripSlash p.url
      if u ∈ st.scrapedUrls then listingCandidates env max rest st
      else
        let st1 := { st with scrapedUrls := u :: st.scrapedUrls,
                             detailFetches := st.detailFetches ++ [u] }
        let st2 :=
          match env.detail u with
          | .ok page => pushRec st1 (mergeListing u (extract_product_details page) p)
          | .httpError _ => pushRec st1 (listingFallback u p)
          | .transportError =>
            { st1 with failedListingDetails := st1.failedListingDetails + 1 }
        listingCandidates env max rest { st2 with count := st2.count + 1 }

/-- The page loop of `scrape_listing` (lines 376-442): fetch, extract,
process candidates, then follow the next-page link unless it is missing,
empty, or equal to the current URL. -/
def listingLoop (env : Env) (max : ℕ) : ℕ → Str → CrawlState → CrawlState
  | 0, _, st => st
  | fuel + 1, cur, st =>
    if !cur.isEmpty ∧ st.count < max then
      let st0 := { st with listingFetches := st.listingFetches ++ [cur] }
      match env.listing cur with
      | .transportError => st0
      | .httpError _ => st0
      | .ok pg =>
        let st1 := listingCandidates env max (extract_listing_products pg.cards cur) st0
        match get_next_page_url pg cur with
        | some nxt =>
          if !nxt.isEmpty ∧ nxt ≠ cur then listingLoop env max fuel nxt st1 else st1
        | none => st1
    else st

def scrape_listing (env : Env) (u : Str) (max fuel : ℕ) (st : CrawlState) : CrawlState :=
  listingLoop env max fuel u st

/-- Model of `scrape_product` (lines 445-480). -/
def scrape_product (env : Env) (url : Str) (max : ℕ) (st : CrawlState) : CrawlState :=
  if st.count ≥ max then st
  else
    let u := rstripSlash url
    if u ∈ st.scrapedUrls then st
    else
      let st1 := { st with scrapedUrls := u :: st.scrapedUrls,
                           detailFetches := st.detailFetches ++ [u] }
      match env.detail u with
      | .transportError => st1
      | .httpError _ => st1
      | .ok page =>
        let st2 := pushRec st1 (productRec u (extract_product_details page))
        { st2 with count := st2.count + 1 }

/-! ### Top-level run (`main`, lines 483-561) -/

/-- Generic split on a character (for `query.split('&')`). -/
def splitOnC (c : Char) (l : Str) : List Str := splitAux c l []

/-- Model of `parse_qs(parsed.query)` followed by
`qs.get('s', qs.get('q', ['']))[0]`: the first non-blank value of `s`,
else of `q`, else `''`.  (Percent and plus decoding are not modelled;
the orchestrator only forwards the value.) -/
def queryOf (u : Str) : Str :=
  let pairs := (splitOnC '&' (urlparse u).query).filterMap (fun kv =>
    match splitFirst '=' kv with
    | some (k, v) => if v.isEmpty then none else some (k, v)
    | none => none)
  match pairs.find? (fun kv => kv.1 == cs ("s")) with
  | some kv => kv.2
  | none =>
    match pairs.find? (fun kv => kv.1 == cs ("q")) with
    | some kv => kv.2
    | none => []

def runQueries (env : Env) (max fuel : ℕ) : List Str → CrawlState → CrawlState
  | [], st => st
  | q :: qs, st =>
    if st.count ≥ max then st
    else runQueries env max fuel qs (scrape_search env q max fuel st)

/-- The per-start-URL dispatch of `main` (lines 546-559). -/
def runStartUrl (env : Env) (max fuel : ℕ) (u : Str) (st : CrawlState) : CrawlState :=
  if is_search_url u then
    let q := queryOf u
    if !q.isEmpty then scrape_search env q max fuel st else st
  else if is_category_url u then scrape_listing env u max fuel st
  else if is_product_url u then scrape_product env u max st
  else scrape_listing env u max fuel st

def runUrls (env : Env) (max fuel : ℕ) : List Str → CrawlState → CrawlState
  | [], st => st
  | u :: us, st =>
    if st.count ≥ max then st
    else runUrls env max fuel us (runStartUrl env max fuel u st)

/-- One whole run: search terms stripped and filtered, start URLs
filtered by `validate_url`, the default query installed when both lists
are empty, then the query loop followed by the start-URL loop. -/
def runMain (env : Env) (queries startUrls : List Str) (max fuel : ℕ) : CrawlState :=
  let qs := (queries.map pyStrip).filter (fun q => !q.isEmpty)
  let us := startUrls.filter validate_url
  if qs.isEmpty ∧ us.isEmpty then
    runQueries env max fuel [cs ("Silver coin")] initState
  else
    runUrls env max fuel us (runQueries env max fuel qs initState)

/-! ### Run invariants

`StOk` is the reconciliation of `CrawlState` with the sink: the count
splits into emitted records plus listing candidates lost to transport
errors, emitted URLs are pairwise distinct, already normalised, and all
recorded in the dedup set.  `StExt` says one state extends another
(monotone dedup set, emitted list extended on the right). -/

theorem rstripSlash_idem (u : Str) : rstripSlash (rstripSlash u) = rstripSlash u := by
  unfold rstripSlash
  rw [List.reverse_reverse, List.dropWhile_idempotent]

def StOk (st : CrawlState) : Prop :=
  st.count = st.emitted.length + st.failedListingDetails ∧
  (st.emitted.map (fun r => r.url)).Nodup ∧
  ∀ r ∈ st.emitted, r.url ∈ st.scrapedUrls ∧ rstripSlash r.url = r.url

def StExt (st st' : CrawlState) : Prop :=
  (∀ u ∈ st.scrapedUrls, u ∈ st'.scrapedUrls) ∧ ∃ l, st'.emitted = st.emitted ++ l

theorem StExt.refl (st : CrawlState) : StExt st st := ⟨fun _ h => h, [], by simp⟩

theorem StExt.trans {a b c : CrawlState} (h1 : StExt a b) (h2 : StExt b c) : StExt a c := by
  obtain ⟨hs1, l1, he1⟩ := h1
  obtain ⟨hs2, l2, he2⟩ := h2
  exact ⟨fun u hu => hs2 u (hs1 u hu), ⟨l1 ++ l2, by rw [he2, he1, List.append_assoc]⟩⟩

theorem StOk_init : StOk initState := by
  refine ⟨rfl, by simp [initState], by simp [initState]⟩

theorem StOk_step_emit (st : CrawlState) (u : Str) (r : ProductRecord)
    (df lf : List Str) (sr : List SearchReq)
    (h : StOk st) (hu : u ∉ st.scrapedUrls) (hurl : r.url = u)
    (hfix : rstripSlash u = u) :
    StOk { count := st.count + 1, scrapedUrls := u :: st.scrapedUrls,
           emitted := st.emitted ++ [r], detailFetches := df,
           listingFetches := lf, searchRequests := sr,
           failedListingDetails := st.failedListingDetails } := by
  obtain ⟨h1, h2, h3⟩ := h
  refine ⟨by simp [h1]; omega, ?_, ?_⟩
  · simp only [List.map_append, List.map_cons, List.map_nil]
    refine List.Nodup.append h2 (List.nodup_singleton _) ?_
    rw [List.disjoint_singleton]
    intro hmem
    obtain ⟨x, hx, hxe⟩ := List.exists_of_mem_map hmem
    exact hu (hurl ▸ hxe ▸ (h3 x hx).1)
  · intro r' hr'
    rcases List.mem_append.mp hr' with hl | hr
    · exact ⟨List.mem_cons_of_mem _ (h3 r' hl).1, (h3 r' hl).2⟩
    · have : r' = r := by simpa using hr
      subst this
      exact ⟨by rw [hurl]; exact List.mem_cons_self _ _, by rw [hurl]; exact hfix⟩

theorem StOk_step_fail (st : CrawlState) (u : Str) (df lf : List Str)
    (sr : List SearchReq) (h : StOk st) :
    StOk { count := st.count + 1, scrapedUrls := u :: st.scrapedUrls,
           emitted := st.emitted, detailFetches := df,
           listingFetches := lf, searchRequests := sr,
           failedListingDetails := st.failedListingDetails + 1 } := by
  obtain ⟨h1, h2, h3⟩ := h
  exact ⟨by simp [h1]; omega, h2,
    fun r hr => ⟨List.mem_cons_of_mem _ (h3 r hr).1, (h3 r hr).2⟩⟩

theorem searchCandidates_ok (env : Env) (max : ℕ) (l : List Candidate) :
    ∀ st : CrawlState, StOk st →
      StOk (searchCandidates env max l st) ∧ StExt st (searchCandidates env max l st) := by
  induction l with
  | nil => intro st h; exact ⟨h, StExt.refl st⟩
  | cons p rest ih =>
    intro st h
    rw [searchCandidates]
    by_cases hq : st.count ≥ max
    · rw [if_pos hq]; exact ⟨h, StExt.refl st⟩
    · rw [if_neg hq]
      by_cases hm : rstripSlash p.url ∈ st.scrapedUrls
      · rw [if_pos hm]; exact ih st h
      · rw [if_neg hm]
        cases hdet : env.detail (rstripSlash p.url) with
        | ok page =>
          have hok := StOk_step_emit st (rstripSlash p.url)
            (mergeSearch (rstripSlash p.url) (extract_product_details page) p)
            (st.detailFetches ++ [rstripSlash p.url]) st.listingFetches st.searchRequests
            h hm rfl (rstripSlash_idem _)
          have hres := ih _ hok
          refine ⟨hres.1, StExt.trans ?_ hres.2⟩
          exact ⟨fun v hv => List.mem_cons_of_mem _ hv, ⟨_, rfl⟩⟩
        | httpError code =>
          have hok := StOk_step_emit st (rstripSlash p.url)
            (apiFallback (rstripSlash p.url) p)
            (st.detailFetches ++ [rstripSlash p.url]) st.listingFetches st.searchRequests
            h hm rfl (rstripSlash_idem _)
          have hres := ih _ hok
          refine ⟨hres.1, StExt.trans ?_ hres.2⟩
          exact ⟨fun v hv => List.mem_cons_of_mem _ hv, ⟨_, rfl⟩⟩
        | transportError =>
          have hok := StOk_step_emit st (rstripSlash p.url)
            (apiFallback (rstripSlash p.url) p)
            (st.detailFetches ++ [rstripSlash p.url]) st.listingFetches st.searchRequests
            h hm rfl (rstripSlash_idem _)
          have hres := ih _ hok
          refine ⟨hres.1, StExt.trans ?_ hres.2⟩
          exact ⟨fun v hv => List.mem_cons_of_mem _ hv, ⟨_, rfl⟩⟩

theorem StOk_step_mark (st : CrawlState) (u : Str) (df lf : List Str)
    (sr : List SearchReq) (h : StOk st) :
    StOk { count := st.count, scrapedUrls := u :: st.scrapedUrls,
           emitted := st.emitted, detailFetches := df,
           listingFetches := lf, searchRequests := sr,
           failedListingDetails := st.failedListingDetails } := by
  obtain ⟨h1, h2, h3⟩ := h
  exact ⟨h1, h2, fun r hr => ⟨List.mem_cons_of_mem _ (h3 r hr).1, (h3 r hr).2⟩⟩

theorem searchCandidates_count_le (env : Env) (max : ℕ) (l : List Candidate) :
    ∀ st : CrawlState, st.count ≤ max → (searchCandidates env max l st).count ≤ max := by
  induction l with
  | nil => intro st h; exact h
  | cons p rest ih =>
    intro st h
    rw [searchCandidates]
    by_cases hq : st.count ≥ max
    · rw [if_pos hq]; exact h
    · rw [if_neg hq]
      by_cases hm : rstripSlash p.url ∈ st.scrapedUrls
      · rw [if_pos hm]; exact ih st h
      · rw [if_neg hm]
        cases hdet : env.detail (rstripSlash p.url) with
        | ok page => exact ih _ (by simp [pushRec]; omega)
        | httpError code => exact ih _ (by simp [pushRec]; omega)
        | transportError => exact ih _ (by simp [pushRec]; omega)

theorem searchCandidates_frozen (env : Env) (max : ℕ) (l : List Candidate)
    (st : CrawlState) (h : st.count ≥ max) : searchCandidates env max l st = st := by
  cases l with
  | nil => rfl
  | cons p rest => rw [searchCandidates, if_pos h]

theorem searchCandidates_reqs (env : Env) (max : ℕ) (l : List Candidate) :
    ∀ st : CrawlState, (searchCandidates env max l st).searchRequests = st.searchRequests := by
  induction l with
  | nil => intro st; rfl
  | cons p rest ih =>
    intro st
    rw [searchCandidates]
    by_cases hq : st.count ≥ max
    · rw [if_pos hq]
    · rw [if_neg hq]
      by_cases hm : rstripSlash p.url ∈ st.scrapedUrls
      · rw [if_pos hm]; exact ih st
      · rw [if_neg hm]
        cases hdet : env.detail (rstripSlash p.url) with
        | ok page => exact ih _
        | httpError code => exact ih _
        | transportError => exact ih _

theorem searchLoop_ok (env : Env) (q : Str) (max : ℕ) :
    ∀ fuel page (st : CrawlState), StOk st →
      StOk (searchLoop env q max fuel page st) ∧
      StExt st (searchLoop env q max fuel page st) := by
  intro fuel
  induction fuel with
  | zero => intro page st h; exact ⟨h, StExt.refl st⟩
  | succ n ih =>
    intro page st h
    rw [searchLoop]
    by_cases hq : st.count < max
    · rw [if_pos hq]
      have h0 : StOk { st with searchRequests := st.searchRequests ++
          [{ page := page, size := min 48 (max - st.count), countBefore := st.count }] } := h
      by_cases hp : (env.searchPage q (min 48 (max - st.count)) page).isEmpty
      · simp only [hp, if_pos]
        exact ⟨h0, ⟨fun v hv => hv, ⟨[], by simp⟩⟩⟩
      · simp only [hp, if_neg, Bool.false_eq_true, not_false_eq_true]
        have hsc := searchCandidates_ok env max (env.searchPage q (min 48 (max - st.count)) page) _ h0
        have hrec := ih (page + 1) _ hsc.1
        refine ⟨hrec.1, StExt.trans (StExt.trans ?_ hsc.2) hrec.2⟩
        exact ⟨fun v hv => hv, ⟨[], by simp⟩⟩
    · rw [if_neg hq]
      exact ⟨h, StExt.refl st⟩

theorem searchLoop_count_le (env : Env) (q : Str) (max : ℕ) :
    ∀ fuel page (st : CrawlState), st.count ≤ max →
      (searchLoop env q max fuel page st).count ≤ max := by
  intro fuel
  induction fuel with
  | zero => intro page st h; exact h
  | succ n ih =>
    intro page st h
    rw [searchLoop]
    by_cases hq : st.count < max
    · rw [if_pos hq]
      by_cases hp : (env.searchPage q (min 48 (max - st.count)) page).isEmpty
      · simp only [hp, if_pos]; exact h
      · simp only [hp, if_neg, Bool.false_eq_true, not_false_eq_true]
        exact ih (page + 1) _ (searchCandidates_count_le env max _ _ h)
    · rw [if_neg hq]; exact h

theorem searchLoop_frozen (env : Env) (q : Str) (max fuel page : ℕ)
    (st : CrawlState) (h : st.count ≥ max) : searchLoop env q max fuel page st = st := by
  cases fuel with
  | zero => rfl
  | succ n => rw [searchLoop, if_neg (by omega)]

theorem listingCandidates_ok (env : Env) (max : ℕ) (l : List Candidate) :
    ∀ st : CrawlState, StOk st →
      StOk (listingCandidates env max l st) ∧ StExt st (listingCandidates env max l st) := by
  induction l with
  | nil => intro st h; exact ⟨h, StExt.refl st⟩
  | cons p rest ih =>
    intro st h
    rw [listingCandidates]
    by_cases hq : st.count ≥ max
    · rw [if_pos hq]; exact ⟨h, StExt.refl st⟩
    · rw [if_neg hq]
      by_cases hm : rstripSlash p.url ∈ st.scrapedUrls
      · rw [if_pos hm]; exact ih st h
      · rw [if_neg hm]
        cases hdet : env.detail (rstripSlash p.url) with
        | ok page =>
          have hok := StOk_step_emit st (rstripSlash p.url)
            (mergeListing (rstripSlash p.url) (extract_product_details page) p)
            (st.detailFetches ++ [rstripSlash p.url]) st.listingFetches st.searchRequests
            h hm rfl (rstripSlash_idem _)
          have hres := ih _ hok
          refine ⟨hres.1, StExt.trans ?_ hres.2⟩
          exact ⟨fun v hv => List.mem_cons_of_mem _ hv, ⟨_, rfl⟩⟩
        | httpError code =>
          have hok := StOk_step_emit st (rstripSlash p.url)
            (listingFallback (rstripSlash p.url) p)
            (st.detailFetches ++ [rstripSlash p.url]) st.listingFetches st.searchRequests
            h hm rfl (rstripSlash_idem _)
          have hres := ih _ hok
          refine ⟨hres.1, StExt.trans ?_ hres.2⟩
          exact ⟨fun v hv => List.mem_cons_of_mem _ hv, ⟨_, rfl⟩⟩
        | transportError =>
          have hok := StOk_step_fail st (rstripSlash p.url)
            (st.detailFetches ++ [rstripSlash p.url]) st.listingFetches st.searchRequests h
          have hres := ih _ hok
          refine ⟨hres.1, StExt.trans ?_ hres.2⟩
          exact ⟨fun v hv => List.mem_cons_of_mem _ hv, ⟨[], by simp⟩⟩

theorem listingCandidates_count_le (env : Env) (max : ℕ) (l : List Candidate) :
    ∀ st : CrawlState, st.count ≤ max → (listingCandidates env max l st).count ≤ max := by
  induction l with
  | nil => intro st h; exact h
  | cons p rest ih =>
    intro st h
    rw [listingCandidates]
    by_cases hq : st.count ≥ max
    · rw [if_pos hq]; exact h
    · rw [if_neg hq]
      by_cases hm : rstripSlash p.url ∈ st.scrapedUrls
      · rw [if_pos hm]; exact ih st h
      · rw [if_neg hm]
        cases hdet : env.detail (rstripSlash p.url) with
        | ok page => exact ih _ (by simp [pushRec]; omega)
        | httpError code => exact ih _ (by simp [pushRec]; omega)
        | transportError => exact ih _ (by simp; omega)

theorem listingCandidates_lf (env : Env) (max : ℕ) (l : List Candidate) :
    ∀ st : CrawlState, (listingCandidates env max l st).listingFetches = st.listingFetches := by
  induction l with
  | nil => intro st; rfl
  | cons p rest ih =>
    intro st
    rw [listingCandidates]
    by_cases hq : st.count ≥ max
    · rw [if_pos hq]
    · rw [if_neg hq]
      by_cases hm : rstripSlash p.url ∈ st.scrapedUrls
      · rw [if_pos hm]; exact ih st
      · rw [if_neg hm]
        cases hdet : env.detail (rstripSlash p.url) with
        | ok page => exact ih _
        | httpError code => exact ih _
        | transportError => exact ih _

theorem listingLoop_ok (env : Env) (max : ℕ) :
    ∀ fuel (cur : Str) (st : CrawlState), StOk st →
      StOk (listingLoop env max fuel cur st) ∧ StExt st (listingLoop env max fuel cur st) := by
  intro fuel
  induction fuel with
  | zero => intro cur st h; exact ⟨h, StExt.refl st⟩
  | succ n ih =>
    intro cur st h
    rw [listingLoop]
    by_cases hg : !cur.isEmpty ∧ st.count < max
    · rw [if_pos hg]
      have h0 : StOk { st with listingFetches := st.listingFetches ++ [cur] } := h
      have hext0 : StExt st { st with listingFetches := st.listingFetches ++ [cur] } :=
        ⟨fun v hv => hv, ⟨[], by simp⟩⟩
      cases hls : env.listing cur with
      | transportError => exact ⟨h0, hext0⟩
      | httpError code => exact ⟨h0, hext0⟩
      | ok pg =>
        dsimp only
        have hlc := listingCandidates_ok env max (extract_listing_products pg.cards cur) _ h0
        cases hnp : get_next_page_url pg cur with
        | none => dsimp only; exact ⟨hlc.1, StExt.trans hext0 hlc.2⟩
        | some nxt =>
          dsimp only
          by_cases hc : !nxt.isEmpty ∧ nxt ≠ cur
          · rw [if_pos hc]
            have hrec := ih nxt _ hlc.1
            exact ⟨hrec.1, StExt.trans (StExt.trans hext0 hlc.2) hrec.2⟩
          · rw [if_neg hc]
            exact ⟨hlc.1, StExt.trans hext0 hlc.2⟩
    · rw [if_neg hg]
      exact ⟨h, StExt.refl st⟩

theorem listingLoop_count_le (env : Env) (max : ℕ) :
    ∀ fuel (cur : Str) (st : CrawlState), st.count ≤ max →
      (listingLoop env max fuel cur st).count ≤ max := by
  intro fuel
  induction fuel with
  | zero => intro cur st h; exact h
  | succ n ih =>
    intro cur st h
    rw [listingLoop]
    by_cases hg : !cur.isEmpty ∧ st.count < max
    · rw [if_pos hg]
      cases hls : env.listing cur with
      | transportError => exact h
      | httpError code => exact h
      | ok pg =>
        dsimp only
        have hlc := listingCandidates_count_le env max (extract_listing_products pg.cards cur)
          { st with listingFetches := st.listingFetches ++ [cur] } h
        cases hnp : get_next_page_url pg cur with
        | none => dsimp only; exact hlc
        | some nxt =>
          dsimp only
          by_cases hc : !nxt.isEmpty ∧ nxt ≠ cur
          · rw [if_pos hc]; exact ih nxt _ hlc
          · rw [if_neg hc]; exact hlc
    · rw [if_neg hg]; exact h

theorem scrape_product_ok (env : Env) (url : Str) (max : ℕ)
    (st : CrawlState) (h : StOk st) :
    StOk (scrape_product env url max st) ∧ StExt st (scrape_product env url max st) := by
  rw [scrape_product]
  by_cases hq : st.count ≥ max
  · rw [if_pos hq]; exact ⟨h, StExt.refl st⟩
  · rw [if_neg hq]
    by_cases hm : rstripSlash url ∈ st.scrapedUrls
    · rw [if_pos hm]; exact ⟨h, StExt.refl st⟩
    · rw [if_neg hm]
      cases hdet : env.detail (rstripSlash url) with
      | transportError =>
        exact ⟨StOk_step_mark st (rstripSlash url) _ _ _ h,
          ⟨fun v hv => List.mem_cons_of_mem _ hv, ⟨[], by simp⟩⟩⟩
      | httpError code =>
        exact ⟨StOk_step_mark st (rstripSlash url) _ _ _ h,
          ⟨fun v hv => List.mem_cons_of_mem _ hv, ⟨[], by simp⟩⟩⟩
      | ok page =>
        exact ⟨StOk_step_emit st (rstripSlash url)
            (productRec (rstripSlash url) (extract_product_details page))
            (st.detailFetches ++ [rstripSlash url]) st.listingFetches st.searchRequests
            h hm rfl (rstripSlash_idem _),
          ⟨fun v hv => List.mem_cons_of_mem _ hv, ⟨_, rfl⟩⟩⟩

theorem scrape_product_count_le (env : Env) (url : Str) (max : ℕ)
    (st : CrawlState) (h : st.count ≤ max) :
    (scrape_product env url max st).count ≤ max := by
  rw [scrape_product]
  by_cases hq : st.count ≥ max
  · rw [if_pos hq]; exact h
  · rw [if_neg hq]
    by_cases hm : rstripSlash url ∈ st.scrapedUrls
    · rw [if_pos hm]; exact h
    · rw [if_neg hm]
      cases hdet : env.detail (rstripSlash url) with
      | transportError => exact h
      | httpError code => exact h
      | ok page => simp [pushRec]; omega

theorem runStartUrl_ok (env : Env) (max fuel : ℕ) (u : Str)
    (st : CrawlState) (h : StOk st) :
    StOk (runStartUrl env max fuel u st) ∧ StExt st (runStartUrl env max fuel u st) := by
  rw [runStartUrl]
  by_cases hs : is_search_url u
  · simp only [hs, if_pos]
    by_cases hq : !(queryOf u).isEmpty
    · rw [if_pos hq]; exact searchLoop_ok env (queryOf u) max fuel 1 st h
    · rw [if_neg hq]; exact ⟨h, StExt.refl st⟩
  · simp only [hs, Bool.false_eq_true, if_neg, not_false_eq_true]
    by_cases hc : is_category_url u
    · simp only [hc, if_pos]
      exact listingLoop_ok env max fuel u st h
    · simp only [hc, Bool.false_eq_true, if_neg, not_false_eq_true]
      by_cases hp : is_product_url u
      · simp only [hp, if_pos]
        exact scrape_product_ok env u max st h
      · simp only [hp, Bool.false_eq_true, if_neg, not_false_eq_true]
        exact listingLoop_ok env max fuel u st h

theorem runStartUrl_count_le (env : Env) (max fuel : ℕ) (u : Str)
    (st : CrawlState) (h : st.count ≤ max) :
    (runStartUrl env max fuel u st).count ≤ max := by
  rw [runStartUrl]
  by_cases hs : is_search_url u
  · simp only [hs, if_pos]
    by_cases hq : !(queryOf u).isEmpty
    · rw [if_pos hq]; exact searchLoop_count_le env (queryOf u) max fuel 1 st h
    · rw [if_neg hq]; exact h
  · simp only [hs, Bool.false_eq_true, if_neg, not_false_eq_true]
    by_cases hc : is_category_url u
    · simp only [hc, if_pos]
      exact listingLoop_count_le env max fuel u st h
    · simp only [hc, Bool.false_eq_true, if_neg, not_false_eq_true]
      by_cases hp : is_product_url u
      · simp only [hp, if_pos]
        exact scrape_product_count_le env u max st h
      · simp only [hp, Bool.false_eq_true, if_neg, not_false_eq_true]
        exact listingLoop_count_le env max fuel u st h

theorem runQueries_ok (env : Env) (max fuel : ℕ) (l : List Str) :
    ∀ st : CrawlState, StOk st →
      StOk (runQueries env max fuel l st) ∧ StExt st (runQueries env max fuel l st) := by
  induction l with
  | nil => intro st h; exact ⟨h, StExt.refl st⟩
  | cons q qs ih =>
    intro st h
    rw [runQueries]
    by_cases hq : st.count ≥ max
    · rw [if_pos hq]; exact ⟨h, StExt.refl st⟩
    · rw [if_neg hq]
      have h1 := searchLoop_ok env q max fuel 1 st h
      have h2 := ih _ h1.1
      exact ⟨h2.1, StExt.trans h1.2 h2.2⟩

theorem runQueries_count_le (env : Env) (max fuel : ℕ) (l : List Str) :
    ∀ st : CrawlState, st.count ≤ max → (runQueries env max fuel l st).count ≤ max := by
  induction l with
  | nil => intro st h; exact h
  | cons q qs ih =>
    intro st h
    rw [runQueries]
    by_cases hq : st.count ≥ max
    · rw [if_pos hq]; exact h
    · rw [if_neg hq]
      exact ih _ (searchLoop_count_le env q max fuel 1 st h)

theorem runUrls_ok (env : Env) (max fuel : ℕ) (l : List Str) :
    ∀ st : CrawlState, StOk st →
      StOk (runUrls env max fuel l st) ∧ StExt st (runUrls env max fuel l st) := by
  induction l with
  | nil => intro st h; exact ⟨h, StExt.refl st⟩
  | cons u us ih =>
    intro st h
    rw [runUrls]
    by_cases hq : st.count ≥ max
    · rw [if_pos hq]; exact ⟨h, StExt.refl st⟩
    · rw [if_neg hq]
      have h1 := runStartUrl_ok env max fuel u st h
      have h2 := ih _ h1.1
      exact ⟨h2.1, StExt.trans h1.2 h2.2⟩

theorem runUrls_count_le (env : Env) (max fuel : ℕ) (l : List Str) :
    ∀ st : CrawlState, st.count ≤ max → (runUrls env max fuel l st).count ≤ max := by
  induction l with
  | nil => intro st h; exact h
  | cons u us ih =>
    intro st h
    rw [runUrls]
    by_cases hq : st.count ≥ max
    · rw [if_pos hq]; exact h
    · rw [if_neg hq]
      exact ih _ (runStartUrl_count_le env max fuel u st h)

theorem runMain_ok (env : Env) (queries startUrls : List Str) (max fuel : ℕ) :
    StOk (runMain env queries startUrls max fuel) := by
  rw [runMain]
  by_cases hb : ((queries.map pyStrip).filter (fun q => !q.isEmpty)).isEmpty ∧
      (startUrls.filter validate_url).isEmpty
  · rw [if_pos hb]
    exact (runQueries_ok env max fuel _ initState StOk_init).1
  · rw [if_neg hb]
    exact (runUrls_ok env max fuel _ _
      (runQueries_ok env max fuel _ initState StOk_init).1).1

theorem runMain_count_le (env : Env) (queries startUrls : List Str) (max fuel : ℕ) :
    (runMain env queries startUrls max fuel).count ≤ max := by
  rw [runMain]
  by_cases hb : ((queries.map pyStrip).filter (fun q => !q.isEmpty)).isEmpty ∧
      (startUrls.filter validate_url).isEmpty
  · rw [if_pos hb]
    exact runQueries_count_le env max fuel _ initState (Nat.zero_le _)
  · rw [if_neg hb]
    exact runUrls_count_le env max fuel _ _
      (runQueries_count_le env max fuel _ initState (Nat.zero_le _))

/-! ### Ghost-trace lemmas: search pagination and the listing self-link -/

theorem searchLoop_trace (env : Env) (q : Str) (max : ℕ) :
    ∀ fuel page (st : CrawlState),
      ∃ nw : List SearchReq,
        (searchLoop env q max fuel page st).searchRequests = st.searchRequests ++ nw ∧
        nw.map (fun r => r.page) = List.range' page nw.length ∧
        ∀ r ∈ nw, r.size = min 48 (max - r.countBefore) ∧ r.countBefore < max := by
  intro fuel
  induction fuel with
  | zero => intro page st; exact ⟨[], by rw [searchLoop]; simp, rfl, by simp⟩
  | succ n ih =>
    intro page st
    rw [searchLoop]
    by_cases hq : st.count < max
    · rw [if_pos hq]
      dsimp only
      by_cases hp : (env.searchPage q (min 48 (max - st.count)) page).isEmpty
      · rw [if_pos hp]
        refine ⟨[{ page := page, size := min 48 (max - st.count), countBefore := st.count }],
          by simp, rfl, ?_⟩
        intro r hr
        have : r = { page := page, size := min 48 (max - st.count), countBefore := st.count } := by
          simpa using hr
        subst this
        exact ⟨rfl, hq⟩
      · rw [if_neg hp]
        obtain ⟨nw', h1, h2, h3⟩ := ih (page + 1)
          (searchCandidates env max (env.searchPage q (min 48 (max - st.count)) page)
            { st with searchRequests := st.searchRequests ++
              [{ page := page, size := min 48 (max - st.count), countBefore := st.count }] })
        refine ⟨{ page := page, size := min 48 (max - st.count), countBefore := st.count } :: nw',
          ?_, ?_, ?_⟩
        · rw [h1, searchCandidates_reqs]
          simp
        · simp only [List.map_cons, h2, List.length_cons]
          rfl
        · intro r hr
          rcases List.mem_cons.mp hr with hl | hrr
          · subst hl; exact ⟨rfl, hq⟩
          · exact h3 r hrr
    · rw [if_neg hq]
      exact ⟨[], by simp, rfl, by simp⟩

theorem searchLoop_stop_empty (env : Env) (q : Str) (max n page : ℕ) (st : CrawlState)
    (hq : st.count < max)
    (hp : (env.searchPage q (min 48 (max - st.count)) page).isEmpty = true) :
    searchLoop env q max (n + 1) page st =
      { st with searchRequests := st.searchRequests ++
        [{ page := page, size := min 48 (max - st.count), countBefore := st.count }] } := by
  rw [searchLoop, if_pos hq]
  dsimp only
  rw [if_pos hp]

theorem searchLoop_continue (env : Env) (q : Str) (max n page : ℕ) (st : CrawlState)
    (hq : st.count < max)
    (hp : ¬(env.searchPage q (min 48 (max - st.count)) page).isEmpty = true) :
    searchLoop env q max (n + 1) page st =
      searchLoop env q max n (page + 1)
        (searchCandidates env max (env.searchPage q (min 48 (max - st.count)) page)
          { st with searchRequests := st.searchRequests ++
            [{ page := page, size := min 48 (max - st.count), countBefore := st.count }] }) := by
  rw [searchLoop, if_pos hq]
  dsimp only
  rw [if_neg hp]

theorem listingLoop_selfLink (env : Env) (max fuel : ℕ) (cur : Str) (st : CrawlState)
    (pg : ListingSoup)
    (hne : cur.isEmpty = false) (hq : st.count < max)
    (hls : env.listing cur = .ok pg)
    (hself : get_next_page_url pg cur = some cur) :
    listingLoop env max (fuel + 1) cur st =
      listingCandidates env max (extract_listing_products pg.cards cur)
        { st with listingFetches := st.listingFetches ++ [cur] } := by
  rw [listingLoop, if_pos ⟨by simp [hne], hq⟩]
  dsimp only
  rw [hls]
  dsimp only
  rw [hself]
  dsimp only
  rw [if_neg (by simp)]

/-! ### String-scan lemmas for the classifier on product-slug URLs -/

theorem startsW_cons_eq {a b : Char} {p l : Str} :
    startsW (a :: p) (b :: l) = ((a == b) && startsW p l) := rfl

theorem startsW_ne_nil {p : Str} (h : p ≠ []) : startsW p [] = false := by
  cases p with
  | nil => exact absurd rfl h
  | cons a q => rfl

theorem hasSub_cons (p : Str) (c : Char) (l : Str) :
    hasSub p (c :: l) = (startsW p (c :: l) || hasSub p l) := rfl

theorem hasSub_skip {a : Char} {p : Str} :
    ∀ {l₁ : Str} (l₂ : Str), (∀ c ∈ l₁, c ≠ a) →
      hasSub (a :: p) (l₁ ++ l₂) = hasSub (a :: p) l₂ := by
  intro l₁
  induction l₁ with
  | nil => intro l₂ _; rfl
  | cons c r ih =>
    intro l₂ h
    rw [List.cons_append, hasSub_cons, startsW_cons_eq]
    have hc : (a == c) = false := by
      rw [beq_eq_false_iff_ne]
      exact fun e => h c (List.mem_cons_self c r) e.symm
    rw [hc, Bool.false_and, Bool.false_or]
    exact ih l₂ (fun x hx => h x (List.mem_cons_of_mem _ hx))

theorem hasSub_head_mem {a : Char} {p : Str} :
    ∀ {l : Str}, hasSub (a :: p) l = true → a ∈ l := by
  intro l
  induction l with
  | nil => intro h; simp [hasSub, startsW] at h
  | cons c r ih =>
    intro h
    rw [hasSub_cons, Bool.or_eq_true] at h
    rcases h with h1 | h2
    · rw [startsW_cons_eq, Bool.and_eq_true, beq_iff_eq] at h1
      rw [h1.1]
      exact List.mem_cons_self c r
    · exact List.mem_cons_of_mem _ (ih h2)

theorem hasSub_false_of_not_mem {a : Char} {p l : Str} (h : a ∉ l) :
    hasSub (a :: p) l = false := by
  cases hs : hasSub (a :: p) l
  · rfl
  · exact absurd (hasSub_head_mem hs) h

/-- Comparing `w ++ ['/']` against `D ++ '/' :: E` when neither `w` nor
`D` contains a slash: the pattern fits exactly when `w = D`. -/
theorem startsW_sf_eq : ∀ (w D E : Str), '/' ∉ w → '/' ∉ D →
    startsW (w ++ ['/']) (D ++ '/' :: E) = decide (w = D) := by
  intro w
  induction w with
  | nil =>
    intro D E _ hD
    cases D with
    | nil => simp [startsW]
    | cons c r =>
      have hc : ('/' == c) = false := by
        rw [beq_eq_false_iff_ne]
        exact fun e => hD (e ▸ List.mem_cons_self c r)
      simp [startsW, hc]
  | cons a w' ih =>
    intro D E hw hD
    cases D with
    | nil =>
      have ha : (a == '/') = false := by
        rw [beq_eq_false_iff_ne]
        exact fun e => hw (e ▸ List.mem_cons_self a w')
      simp [startsW, ha]
    | cons c r =>
      rw [List.cons_append, List.cons_append, startsW_cons_eq,
        ih r E (fun hx => hw (List.mem_cons_of_mem _ hx))
          (fun hx => hD (List.mem_cons_of_mem _ hx))]
      by_cases he : a = c
      · subst he; simp
      · simp [he]

/-- Comparing a slash-free `w` against `D ++ '/' :: E` with `D`
slash-free: the slash can never be crossed. -/
theorem startsW_sf_noslash : ∀ (w D E : Str), '/' ∉ w → '/' ∉ D →
    startsW w (D ++ '/' :: E) = startsW w D := by
  intro w
  induction w with
  | nil => intro D E _ _; rfl
  | cons a w' ih =>
    intro D E hw hD
    cases D with
    | nil =>
      have ha : (a == '/') = false := by
        rw [beq_eq_false_iff_ne]
        exact fun e => hw (e ▸ List.mem_cons_self a w')
      simp [startsW, ha]
    | cons c r =>
      rw [List.cons_append, startsW_cons_eq, startsW_cons_eq,
        ih r E (fun hx => hw (List.mem_cons_of_mem _ hx))
          (fun hx => hD (List.mem_cons_of_mem _ hx))]

theorem startsW_head_ne {a : Char} {w R : Str} (hne : w ≠ [])
    (hh : a ∉ w) : startsW w (a :: R) = false := by
  cases w with
  | nil => exact absurd rfl hne
  | cons b w' =>
    rw [startsW_cons_eq]
    have : (b == a) = false := by
      rw [beq_eq_false_iff_ne]
      exact fun e => hh (e ▸ List.mem_cons_self b w')
    rw [this, Bool.false_and]

theorem startsW_app_head_ne {w R : Str} (hne : w ≠ []) (hw : '/' ∉ w) :
    startsW (w ++ ['/']) ('/' :: R) = false := by
  cases w with
  | nil => exact absurd rfl hne
  | cons b w' =>
    rw [List.cons_append, startsW_cons_eq]
    have : (b == '/') = false := by
      rw [beq_eq_false_iff_ne]
      exact fun e => hw (e ▸ List.mem_cons_self b w')
    rw [this, Bool.false_and]

def sitePre : Str := cs ("https://www.silver.com/")

theorem sitePre_decomp (X : Str) :
    sitePre ++ X = cs ("https:") ++ ('/' :: '/' :: (cs ("www.silver.com") ++ '/' :: X)) := by
  have h : sitePre = cs ("https:") ++ ('/' :: '/' :: (cs ("www.silver.com") ++ ['/'])) := by decide
  rw [h]
  simp

/-- Scanning the product-slug URL for a denylist pattern `/w/`: the only
hit can be at the slug itself. -/
theorem hasSub_skipWord (w seg : Str) (hw1 : w ≠ []) (hw2 : '/' ∉ w)
    (hw3 : w ≠ cs ("www.silver.com")) (hs : '/' ∉ seg) :
    hasSub ('/' :: (w ++ ['/'])) (sitePre ++ (seg ++ ['/'])) = decide (seg = w) := by
  rw [sitePre_decomp]
  rw [hasSub_skip _ (by decide)]
  rw [hasSub_cons, hasSub_cons]
  rw [hasSub_skip _ (by decide)]
  rw [hasSub_cons]
  rw [hasSub_skip _ (fun c hc e => hs (by rwa [e] at hc))]
  rw [hasSub_cons]
  rw [startsW_cons_eq, startsW_cons_eq, startsW_cons_eq, startsW_cons_eq]
  rw [startsW_app_head_ne hw1 hw2]
  rw [startsW_sf_eq w (cs ("www.silver.com")) _ hw2 (by decide)]
  rw [startsW_sf_eq w seg [] hw2 hs]
  rw [startsW_ne_nil (by simp : w ++ ['/'] ≠ [])]
  have h0 : hasSub ('/' :: (w ++ ['/'])) [] = false := by
    simp [hasSub, startsW]
  rw [h0]
  have h1 : (decide (w = cs ("www.silver.com"))) = false := decide_eq_false hw3
  rw [h1]
  simp [eq_comm]

/-- Scanning the product-slug URL for `/w` with `w` slash-free: the only
possible hit is `w` at the head of the slug. -/
theorem hasSub_slashWord (w seg : Str) (hw1 : w ≠ []) (hw2 : '/' ∉ w)
    (hw3 : startsW w (cs ("www.silver.com")) = false) (hs : '/' ∉ seg) :
    hasSub ('/' :: w) (sitePre ++ (seg ++ ['/'])) = startsW w seg := by
  rw [sitePre_decomp]
  rw [hasSub_skip _ (by decide)]
  rw [hasSub_cons, hasSub_cons]
  rw [hasSub_skip _ (by decide)]
  rw [hasSub_cons]
  rw [hasSub_skip _ (fun c hc e => hs (by rwa [e] at hc))]
  rw [hasSub_cons]
  rw [startsW_cons_eq, startsW_cons_eq, startsW_cons_eq, startsW_cons_eq]
  rw [startsW_head_ne hw1 hw2]
  rw [startsW_sf_noslash w (cs ("www.silver.com")) _ hw2 (by decide)]
  rw [startsW_sf_noslash w seg [] hw2 hs]
  rw [startsW_ne_nil hw1, hw3]
  have h0 : hasSub ('/' :: w) [] = false := by
    simp [hasSub, startsW]
  rw [h0]
  simp

/-- The characters allowed in the product-slug quantification: no path,
query, fragment or dot characters. -/
def slugChar (c : Char) : Bool :=
  !(c == '/' || c == '?' || c == '#' || c == '&' || c == '.')

theorem slug_no (seg : Str) (h1 : ∀ c ∈ seg, slugChar c = true) :
    '/' ∉ seg ∧ '?' ∉ seg ∧ '#' ∉ seg ∧ '&' ∉ seg ∧ '.' ∉ seg := by
  refine ⟨fun h => absurd (h1 _ h) (by decide), fun h => absurd (h1 _ h) (by decide),
    fun h => absurd (h1 _ h) (by decide), fun h => absurd (h1 _ h) (by decide),
    fun h => absurd (h1 _ h) (by decide)⟩

theorem splitFirst_cons_ne {c a : Char} (l : Str) (h : ¬a = c) :
    splitFirst c (a :: l) = (splitFirst c l).map (fun q => (a :: q.1, q.2)) := by
  simp [splitFirst, h]

theorem splitFirst_cons_self {c : Char} (l : Str) :
    splitFirst c (c :: l) = some ([], l) := by
  simp [splitFirst]

theorem splitFirst_none {c : Char} : ∀ {l : Str}, c ∉ l → splitFirst c l = none := by
  intro l
  induction l with
  | nil => intro _; rfl
  | cons a r ih =>
    intro h
    rw [splitFirst_cons_ne r (fun e => h (by rw [← e]; exact List.mem_cons_self a r)),
      ih (fun hm => h (List.mem_cons_of_mem _ hm))]
    rfl

theorem tw_cons_pos {p : Char → Bool} {a : Char} (l : Str) (h : p a = true) :
    (a :: l).takeWhile p = a :: l.takeWhile p := by
  simp [List.takeWhile, h]

theorem tw_cons_neg {p : Char → Bool} {a : Char} (l : Str) (h : p a = false) :
    (a :: l).takeWhile p = [] := by
  simp [List.takeWhile, h]

theorem dw_cons_pos {p : Char → Bool} {a : Char} (l : Str) (h : p a = true) :
    (a :: l).dropWhile p = l.dropWhile p := by
  simp [List.dropWhile, h]

theorem dw_cons_neg {p : Char → Bool} {a : Char} (l : Str) (h : p a = false) :
    (a :: l).dropWhile p = a :: l := by
  simp [List.dropWhile, h]

theorem tw_app_all {p : Char → Bool} :
    ∀ {l₁ : Str} (l₂ : Str), (∀ c ∈ l₁, p c = true) →
      (l₁ ++ l₂).takeWhile p = l₁ ++ l₂.takeWhile p := by
  intro l₁
  induction l₁ with
  | nil => intro l₂ _; rfl
  | cons a r ih =>
    intro l₂ h
    rw [List.cons_append, tw_cons_pos _ (h a (List.mem_cons_self a r)),
      ih l₂ (fun c hc => h c (List.mem_cons_of_mem _ hc)), List.cons_append]

theorem dw_app_all {p : Char → Bool} :
    ∀ {l₁ : Str} (l₂ : Str), (∀ c ∈ l₁, p c = true) →
      (l₁ ++ l₂).dropWhile p = l₂.dropWhile p := by
  intro l₁
  induction l₁ with
  | nil => intro l₂ _; rfl
  | cons a r ih =>
    intro l₂ h
    rw [List.cons_append, dw_cons_pos _ (h a (List.mem_cons_self a r)),
      ih l₂ (fun c hc => h c (List.mem_cons_of_mem _ hc))]

theorem tw_all {p : Char → Bool} : ∀ {l : Str}, (∀ c ∈ l, p c = true) →
    l.takeWhile p = l := by
  intro l
  induction l with
  | nil => intro _; rfl
  | cons a r ih =>
    intro h
    rw [tw_cons_pos _ (h a (List.mem_cons_self a r)),
      ih (fun c hc => h c (List.mem_cons_of_mem _ hc))]

theorem dw_none {p : Char → Bool} {l : Str} (h : ∀ c ∈ l, p c = false) :
    l.dropWhile p = l := by
  cases l with
  | nil => rfl
  | cons a r => exact dw_cons_neg _ (h a (List.mem_cons_self a r))

theorem urlparse_slug (seg : Str) (h1 : ∀ c ∈ seg, slugChar c = true) :
    urlparse (sitePre ++ (seg ++ ['/'])) =
      ⟨cs ("https"), cs ("www.silver.com"), '/' :: (seg ++ ['/']), []⟩ := by
  obtain ⟨hs, hq, hh, _, _⟩ := slug_no seg h1
  rw [sitePre_decomp]
  have e2 : splitFirst ':' (cs ("https:") ++ ('/' :: '/' :: (cs ("www.silver.com") ++ '/' :: (seg ++ ['/'])))) =
      some (cs ("https"), '/' :: '/' :: (cs ("www.silver.com") ++ '/' :: (seg ++ ['/']))) := by
    have hcs : cs ("https:") = 'h' :: 't' :: 't' :: 'p' :: 's' :: ':' :: [] := by decide
    rw [hcs]
    simp only [List.cons_append, List.nil_append]
    rw [splitFirst_cons_ne _ (by decide), splitFirst_cons_ne _ (by decide),
      splitFirst_cons_ne _ (by decide), splitFirst_cons_ne _ (by decide),
      splitFirst_cons_ne _ (by decide), splitFirst_cons_self]
    rfl
  unfold urlparse
  rw [e2]
  dsimp only
  rw [if_pos (by decide : schemeOK (cs ("https")) = true)]
  have hsw : startsW (cs ("//")) ('/' :: '/' :: (cs ("www.silver.com") ++ '/' :: (seg ++ ['/']))) = true := by
    have : cs ("//") = ['/', '/'] := by decide
    rw [this]
    simp [startsW]
  rw [if_pos hsw]
  have hdrop : ('/' :: '/' :: (cs ("www.silver.com") ++ '/' :: (seg ++ ['/']))).drop 2 =
      cs ("www.silver.com") ++ '/' :: (seg ++ ['/']) := rfl
  have hnet : (cs ("www.silver.com") ++ '/' :: (seg ++ ['/'])).takeWhile notDelim =
      cs ("www.silver.com") := by
    rw [tw_app_all _ (by decide), tw_cons_neg _ (by decide), List.append_nil]
  have htail : (cs ("www.silver.com") ++ '/' :: (seg ++ ['/'])).dropWhile notDelim =
      '/' :: (seg ++ ['/']) := by
    rw [dw_app_all _ (by decide), dw_cons_neg _ (by decide)]
  have hall2 : ∀ c ∈ '/' :: (seg ++ ['/']), (c != '#') = true := by
    intro c hc
    rcases List.mem_cons.mp hc with rfl | hc2
    · decide
    · rcases List.mem_append.mp hc2 with hc3 | hc4
      · simp only [bne_iff_ne, ne_eq]
        exact fun e => hh (e ▸ hc3)
      · have : c = '/' := by simpa using hc4
        subst this; decide
  have hall3 : ∀ c ∈ '/' :: (seg ++ ['/']), (c != '?') = true := by
    intro c hc
    rcases List.mem_cons.mp hc with rfl | hc2
    · decide
    · rcases List.mem_append.mp hc2 with hc3 | hc4
      · simp only [bne_iff_ne, ne_eq]
        exact fun e => hq (e ▸ hc3)
      · have : c = '/' := by simpa using hc4
        subst this; decide
  have htail2 : ('/' :: (seg ++ ['/'])).takeWhile (fun c => c != '#') =
      '/' :: (seg ++ ['/']) := tw_all hall2
  have hpath : ('/' :: (seg ++ ['/'])).takeWhile (fun c => c != '?') =
      '/' :: (seg ++ ['/']) := tw_all hall3
  have hquery : splitFirst '?' ('/' :: (seg ++ ['/'])) = none := by
    refine splitFirst_none (fun hm => ?_)
    rcases List.mem_cons.mp hm with he | hc2
    · exact absurd he (by decide)
    · rcases List.mem_append.mp hc2 with hc3 | hc4
      · exact hq hc3
      · have hcc : ('?' : Char) = '/' := by simpa using hc4
        exact absurd hcc (by decide)
  rw [hdrop, hnet, htail, htail2, hpath, hquery]
  rfl

theorem lowerC_ne_slash {c : Char} (h : c ≠ '/') : lowerC c ≠ '/' := by
  unfold lowerC
  split
  · rename_i hup
    intro he
    have h1 : 65 ≤ c.toNat := by
      have := hup.1
      rw [Char.le_def] at this
      exact this
    have h2 : c.toNat ≤ 90 := by
      have := hup.2
      rw [Char.le_def] at this
      exact this
    have hv : (c.toNat + 32).isValidChar := by
      left; omega
    have ht : (Char.ofNat (c.toNat + 32)).toNat = c.toNat + 32 := by
      rw [Char.ofNat, dif_pos hv]
      simp only [Char.ofNatAux, Char.toNat, UInt32.toNat, UInt32.ofNat', BitVec.toNat_ofNatLt]
    rw [he] at ht
    have h47 : ('/' : Char).toNat = 47 := by decide
    omega
  · exact h

theorem lowerStr_no_slash {seg : Str} (h : '/' ∉ seg) : '/' ∉ lowerStr seg := by
  intro hm
  obtain ⟨d, hd, hde⟩ := List.mem_map.mp hm
  exact lowerC_ne_slash (fun e => h (e ▸ hd)) hde

theorem stripSlashes_slug (x : Str) (hne : x ≠ []) (hns : '/' ∉ x) :
    stripSlashes ('/' :: (x ++ ['/'])) = x := by
  unfold stripSlashes
  rw [dw_cons_pos _ (by simp)]
  have h1 : (x ++ ['/']).dropWhile (fun c => decide (c = '/')) = x ++ ['/'] := by
    cases x with
    | nil => exact absurd rfl hne
    | cons a r =>
      rw [List.cons_append]
      exact dw_cons_neg _ (by
        simp only [decide_eq_false_iff_not]
        exact fun e => hns (e ▸ List.mem_cons_self a r))
  rw [h1]
  have h2 : (x ++ ['/']).reverse = '/' :: x.reverse := by simp
  rw [h2, dw_cons_pos _ (by simp)]
  rw [dw_none (fun c hc => by
    simp only [decide_eq_false_iff_not]
    exact fun e => hns (e ▸ (List.mem_reverse.mp hc)))]
  exact List.reverse_reverse x

theorem splitAux_noslash : ∀ (l acc : Str), '/' ∉ l →
    splitAux '/' l acc = [acc.reverse ++ l] := by
  intro l
  induction l with
  | nil => intro acc _; simp [splitAux]
  | cons c r ih =>
    intro acc h
    rw [splitAux, if_neg (fun e => h (by rw [e]; exact List.mem_cons_self '/' r))]
    rw [ih (c :: acc) (fun hm => h (List.mem_cons_of_mem _ hm))]
    simp

theorem splitSlash_noslash {l : Str} (h : '/' ∉ l) : splitSlash l = [l] := by
  unfold splitSlash
  rw [splitAux_noslash l [] h]
  rfl

/-- The denylist segments as bare words (the code's patterns with the
surrounding slashes stripped). -/
def skipWords : List Str :=
  [cs ("about"), cs ("contact"), cs ("faq"), cs ("help"), cs ("blog"), cs ("my-account"),
   cs ("cart"), cs ("checkout"), cs ("shipping"), cs ("privacy"), cs ("terms"),
   cs ("wp-admin"), cs ("wp-content")]

theorem is_search_slug (seg : Str) (h1 : ∀ c ∈ seg, slugChar c = true)
    (h2 : startsW (cs ("search")) seg = false) :
    is_search_url (sitePre ++ (seg ++ ['/'])) = false := by
  obtain ⟨hs, hq, _, ha, _⟩ := slug_no seg h1
  unfold is_search_url
  have hqm : '?' ∉ sitePre ++ (seg ++ ['/']) := by
    intro hm
    rcases List.mem_append.mp hm with h | h
    · exact absurd h (by decide)
    · rcases List.mem_append.mp h with h' | h'
      · exact hq h'
      · have : ('?' : Char) = '/' := by simpa using h'
        exact absurd this (by decide)
  have ham : '&' ∉ sitePre ++ (seg ++ ['/']) := by
    intro hm
    rcases List.mem_append.mp hm with h | h
    · exact absurd h (by decide)
    · rcases List.mem_append.mp h with h' | h'
      · exact ha h'
      · have : ('&' : Char) = '/' := by simpa using h'
        exact absurd this (by decide)
  have e1 : cs ("?s=") = '?' :: cs ("s=") := by decide
  have e2 : cs ("&s=") = '&' :: cs ("s=") := by decide
  have e3 : cs ("/search") = '/' :: cs ("search") := by decide
  rw [e1, e2, e3, hasSub_false_of_not_mem hqm, hasSub_false_of_not_mem ham,
    hasSub_slashWord (cs ("search")) seg (by decide) (by decide) (by decide) hs, h2]
  rfl

theorem is_category_slug (seg : Str) (h0 : seg ≠ [])
    (h1 : ∀ c ∈ seg, slugChar c = true)
    (h2 : startsW (cs ("search")) seg = false)
    (h3 : topCategories.contains (lowerStr seg) = false)
    (h4 : lowerStr seg ≠ cs ("page"))
    (h5 : hasSub (cs ("product-category")) (lowerStr seg) = false) :
    is_category_url (sitePre ++ (seg ++ ['/'])) = false := by
  obtain ⟨hs, _, _, _, _⟩ := slug_no seg h1
  unfold is_category_url
  rw [is_search_slug seg h1 h2]
  rw [urlparse_slug seg h1]
  dsimp only
  have hlow : lowerStr ('/' :: (seg ++ ['/'])) = '/' :: (lowerStr seg ++ ['/']) := by
    simp only [lowerStr, List.map_cons, List.map_append, List.map_nil]
    rw [show lowerC '/' = '/' from by decide]
  rw [hlow]
  have hlns : '/' ∉ lowerStr seg := lowerStr_no_slash hs
  have hlne : lowerStr seg ≠ [] := by
    cases seg with
    | nil => exact absurd rfl h0
    | cons a r => simp [lowerStr]
  rw [stripSlashes_slug _ hlne hlns]
  have hie : (lowerStr seg).isEmpty = false := by
    cases hlseg : lowerStr seg with
    | nil => exact absurd hlseg hlne
    | cons a r => rfl
  rw [if_neg (show ¬((lowerStr seg).isEmpty = true) by simp [hie])]
  rw [splitSlash_noslash hlns]
  have hfil : [lowerStr seg].filter (fun s => !s.isEmpty) = [lowerStr seg] := by
    simp [List.filter, hie]
  rw [hfil]
  dsimp only
  have h3' : lowerStr seg ∉ topCategories := by
    intro hm
    have hel := List.elem_iff.mpr hm
    rw [show topCategories.elem (lowerStr seg) = topCategories.contains (lowerStr seg) from rfl,
      h3] at hel
    simp at hel
  rw [if_neg (show ¬(topCategories.contains (lowerStr seg) = true) by rw [h3]; simp)]
  rw [h5]
  rw [if_neg (show ¬(false = true) by simp)]
  have hbeq : (cs ("page") == lowerStr seg) = false := by
    rw [beq_eq_false_iff_ne]
    exact fun e => h4 e.symm
  have hcont : [lowerStr seg].contains (cs ("page")) = false := by
    simp only [List.contains, List.elem, hbeq]
  rw [hcont]
  rfl

theorem validate_slug (seg : Str) (h1 : ∀ c ∈ seg, slugChar c = true) :
    validate_url (sitePre ++ (seg ++ ['/'])) = true := by
  unfold validate_url hostOf
  rw [urlparse_slug seg h1]
  dsimp only
  decide

theorem is_product_slug (seg : Str) (h0 : seg ≠ [])
    (h1 : ∀ c ∈ seg, slugChar c = true)
    (h2 : startsW (cs ("search")) seg = false)
    (h3 : topCategories.contains (lowerStr seg) = false)
    (h4 : lowerStr seg ≠ cs ("page"))
    (h5 : hasSub (cs ("product-category")) (lowerStr seg) = false)
    (h6 : ∀ w ∈ skipWords, seg ≠ w) :
    is_product_url (sitePre ++ (seg ++ ['/'])) = true := by
  obtain ⟨hs, _, _, _, hdot⟩ := slug_no seg h1
  unfold is_product_url
  rw [validate_slug seg h1]
  rw [if_neg (show ¬((!true) = true) by simp)]
  rw [is_search_slug seg h1 h2]
  rw [if_neg (show ¬(false = true) by simp)]
  have hwprops : ∀ w ∈ skipWords, w ≠ [] ∧ '/' ∉ w ∧ w ≠ cs ("www.silver.com") := by decide
  have hskip : ∀ w ∈ skipWords,
      hasSub ('/' :: (w ++ ['/'])) (sitePre ++ (seg ++ ['/'])) = false := by
    intro w hw
    rw [hasSub_skipWord w seg (hwprops w hw).1 (hwprops w hw).2.1 (hwprops w hw).2.2 hs]
    exact decide_eq_false (h6 w hw)
  have hmap : SKIP_PATH_SEGMENTS = skipWords.map (fun w => '/' :: (w ++ ['/'])) := by decide
  have hany : SKIP_PATH_SEGMENTS.any
      (fun sk => hasSub sk (sitePre ++ (seg ++ ['/']))) = false := by
    rw [hmap, List.any_eq_false]
    intro x hx
    obtain ⟨w, hw, hwx⟩ := List.mem_map.mp hx
    rw [← hwx]
    simp [hskip w hw]
  rw [hany]
  rw [if_neg (show ¬(false = true) by simp)]
  rw [urlparse_slug seg h1]
  dsimp only
  rw [stripSlashes_slug seg h0 hs]
  have hie : seg.isEmpty = false := by
    cases seg with
    | nil => exact absurd rfl h0
    | cons a r => rfl
  rw [if_neg (show ¬(seg.isEmpty = true) by simp [hie])]
  rw [is_category_slug seg h0 h1 h2 h3 h4 h5]
  rw [if_neg (show ¬(false = true) by simp)]
  rw [splitSlash_noslash hs]
  have hfil : [seg].filter (fun s => !s.isEmpty) = [seg] := by
    simp [List.filter, hie]
  rw [hfil]
  dsimp only
  have hdotb : seg.contains '.' = false := by
    cases hc : seg.contains '.' with
    | false => rfl
    | true => exact absurd (List.elem_iff.mp hc) hdot
  rw [hdotb]
  rfl

theorem classify_slug (seg : Str) (h0 : seg ≠ [])
    (h1 : ∀ c ∈ seg, slugChar c = true)
    (h2 : startsW (cs ("search")) seg = false)
    (h3 : topCategories.contains (lowerStr seg) = false)
    (h4 : lowerStr seg ≠ cs ("page"))
    (h5 : hasSub (cs ("product-category")) (lowerStr seg) = false)
    (h6 : ∀ w ∈ skipWords, seg ≠ w) :
    classify (sitePre ++ (seg ++ ['/'])) = .product := by
  unfold classify
  rw [validate_slug seg h1]
  rw [if_neg (show ¬((!true) = true) by simp)]
  rw [is_search_slug seg h1 h2]
  rw [if_neg (show ¬(false = true) by simp)]
  rw [is_category_slug seg h0 h1 h2 h3 h4 h5]
  rw [if_neg (show ¬(false = true) by simp)]
  rw [is_product_slug seg h0 h1 h2 h3 h4 h5 h6]
  rfl

/-- Lemma: `searchCandidates` only extends the state (dedup set grows, emitted
records are appended), with no invariant hypothesis. -/
theorem searchCandidates_ext (env : Env) (max : ℕ) (l : List Candidate) :
    ∀ st : CrawlState, StExt st (searchCandidates env max l st) := by
  induction l with
  | nil => intro st; exact StExt.refl st
  | cons p rest ih =>
    intro st
    rw [searchCandidates]
    by_cases hq : st.count ≥ max
    · rw [if_pos hq]; exact StExt.refl st
    · rw [if_neg hq]
      by_cases hm : rstripSlash p.url ∈ st.scrapedUrls
      · rw [if_pos hm]; exact ih st
      · rw [if_neg hm]
        cases hdet : env.detail (rstripSlash p.url) with
        | ok page =>
          exact StExt.trans ⟨fun v hv => List.mem_cons_of_mem _ hv, ⟨_, rfl⟩⟩ (ih _)
        | httpError code =>
          exact StExt.trans ⟨fun v hv => List.mem_cons_of_mem _ hv, ⟨_, rfl⟩⟩ (ih _)
        | transportError =>
          exact StExt.trans ⟨fun v hv => List.mem_cons_of_mem _ hv, ⟨_, rfl⟩⟩ (ih _)

/-- Lemma: `extract_product_details` always produces a non-empty availability
string: a literal state or a member of `AVAILABILITY_STATES`. -/
theorem epd_availability_ne (s : DetailSoup) :
    (extract_product_details s).availability ≠ [] := by
  unfold extract_product_details
  dsimp only
  split
  · split
    · rename_i st hf
      have hmem := List.mem_of_find?_eq_some hf
      have hall : ∀ x ∈ AVAILABILITY_STATES, x ≠ [] := by decide
      exact hall st hmem
    · decide
  · rename_i h
    split
    · split
      · decide
      · split
        · decide
        · split
          · decide
          · decide
    · decide

/-- Python `x or y` on a detail string and an index string, rendered as the
emitted option value. -/
theorem name_rule (d : Option Str) (b : Str) :
    some (if truthyS d then d.getD [] else b) = (if truthyS d then d else some b) := by
  cases d with
  | none => simp [truthyS]
  | some x => by_cases h : x.isEmpty <;> simp [truthyS, h]

/-! ### Concrete environments for the claims' scenarios -/

/-- A detail page with no extractable data at all. -/
def soup0 : DetailSoup :=
  { h1 := none, metaPriceContent := none, priceEl := none, ogImageContent := none,
    galleryImgSrc := none, skuEl := none, availEl := none, pageText := [], descText := none }

/-- A detail page whose sku element exists but is empty. -/
def soupSku : DetailSoup :=
  { soup0 with skuEl := some { content := none, text := [] } }

/-- Numbered search-API candidates. -/
def candN (i : ℕ) : Candidate :=
  { url := cs ("https://www.silver.com/c" ++ toString i ++ "/"), name := cs ("Test Coin"),
    price := some (cs ("$5.00")), priceNumeric := some 5, image := none, sku := none,
    description := none, availability := some (cs ("In Stock")) }

/-- A listing-page candidate (the listing strategy never sets
`priceNumeric`, `sku`, `description` or `availability`). -/
def candL : Candidate :=
  { url := cs ("https://www.silver.com/prod-a/"), name := cs ("Prod A"), price := none,
    priceNumeric := none, image := none, sku := none, description := none,
    availability := none }

/-- Search source yielding five candidates on page 1; detail pages 500. -/
def envC2 : Env :=
  { detail := fun _ => .httpError 500,
    searchPage := fun _ _ page =>
      if page = 1 then [candN 1, candN 2, candN 3, candN 4, candN 5] else [],
    listing := fun _ => .transportError }

/-- All product pages succeed with an empty detail page. -/
def envC3 : Env :=
  { detail := fun _ => .ok soup0, searchPage := fun _ _ _ => [],
    listing := fun _ => .transportError }

def cardP : Card :=
  { href := some (cs ("https://www.silver.com/prod-x")), anchorText := cs ("Prod X item"),
    titleText := some (cs ("Prod X item")), priceText := none, img := none }

/-- The same product reachable through the search API (with a trailing
slash) and through a listing page (without). -/
def envC3b : Env :=
  { detail := fun _ => .ok soup0,
    searchPage := fun _ _ page =>
      if page = 1 then
        [{ url := cs ("https://www.silver.com/prod-x/"), name := cs ("Prod X"), price := none,
           priceNumeric := none, image := none, sku := none, description := none,
           availability := some (cs ("In Stock")) }]
      else [],
    listing := fun u =>
      if u = cs ("https://www.silver.com/silver-bars/") then
        .ok { cards := [cardP], nextAnchorHref := none }
      else .transportError }

def card0 : Card :=
  { href := some (cs ("https://www.silver.com/1-oz-round/")), anchorText := cs ("1 oz Round"),
    titleText := some (cs ("1 oz Round")), priceText := some (cs ("$20.00")), img := none }

/-- One listing page with one candidate whose detail fetch raises. -/
def envC4 : Env :=
  { detail := fun _ => .transportError, searchPage := fun _ _ _ => [],
    listing := fun u =>
      if u = cs ("https://www.silver.com/silver-coins/") then
        .ok { cards := [card0], nextAnchorHref := none }
      else .transportError }

/-- A listing page whose next-page anchor resolves to the page itself. -/
def pgSelf : ListingSoup :=
  { cards := [], nextAnchorHref := some (cs ("https://www.silver.com/silver-coins/")) }

def envC5 : Env :=
  { detail := fun _ => .transportError, searchPage := fun _ _ _ => [],
    listing := fun _ => .ok pgSelf }

/-- Quota 3: page 1 is requested with size `min 48 3 = 3`, returns two
candidates, and page 2 is then requested with size `min 48 1 = 1`. -/
def envC6 : Env :=
  { detail := fun _ => .httpError 404,
    searchPage := fun _ _ page => if page = 1 then [candN 1, candN 2] else [],
    listing := fun _ => .transportError }

/-- A SearchSpring item whose numeric price fields are both zero. -/
def ssItem0 : SSItem :=
  { url := some (cs ("/p1/")), product_url := none, name := some (cs ("Coin")),
    title := none, price := some 0, sale_price := some 0, thumbnailImageUrl := none,
    imageUrl := none, image := none, sku := none, uid := none, description := .absent,
    short_description := .absent, ss_in_stock := .absent, in_stock := .absent,
    availability := .absent }

def cand0 : Candidate :=
  { url := cs ("https://www.silver.com/p1/"), name := cs ("Coin"), price := none,
    priceNumeric := none, image := none, sku := none, description := none,
    availability := some (cs ("In Stock")) }

/-- The premise of claim C7, following its words: a URL on the target
host whose path has exactly one non-empty, dot-free segment that does
not match the denylist of non-catalog segments. -/
def c7premise (u : Str) : Bool :=
  validate_url u &&
    (match (splitSlash (stripSlashes (urlparse u).path)).filter (fun s => !s.isEmpty) with
     | [seg] => !seg.contains '.' && !skipWords.contains seg
     | _ => false)

/-! ### The claims -/

/-- C1 (counterexample): the claim's field rule — detail value when
present and non-empty, otherwise the index value — fails for the `sku`
field of a listing-task record: the code copies the detail sku
unconditionally (line 413), so an empty-string detail sku is emitted as
`""` where the rule demands the index side's absent value. -/
theorem claim_C1_counterexample :
    (mergeListing (cs ("https://www.silver.com/prod-a")) (extract_product_details soupSku)
        candL).sku ≠
      (if truthyS (extract_product_details soupSku).sku
       then (extract_product_details soupSku).sku else candL.sku) := by decide

/-- C1 (amended): emitted records merge field-by-field by Python
truthiness — the detail value is taken when truthy (non-`None`,
non-empty string, non-zero number, the spec's zero-as-missing
convention), else the index value — for all seven fields of a
search-task record, availability included (the code copies the detail
availability unconditionally, which agrees with the rule because the
detail extractor always yields a non-empty availability string).  In
listing-task records the same rule holds for name, price and image;
`priceNumeric` falls back to re-parsing the listing's price display;
and `sku`/`description` are copied from the detail side unconditionally
(the listing source never carries them), so an empty-string detail
value is emitted as empty rather than as the index side's absent. -/
theorem claim_C1_amended (u : Str) (s : DetailSoup) (p : Candidate) :
    ((mergeSearch u (extract_product_details s) p).name =
      (if truthyS (extract_product_details s).name then (extract_product_details s).name
       else some p.name)) ∧
    ((mergeSearch u (extract_product_details s) p).price =
      (if truthyS (extract_product_details s).price then (extract_product_details s).price
       else p.price)) ∧
    ((mergeSearch u (extract_product_details s) p).priceNumeric =
      (if truthyQ (extract_product_details s).priceNumeric
       then (extract_product_details s).priceNumeric else p.priceNumeric)) ∧
    ((mergeSearch u (extract_product_details s) p).imageUrl =
      (if truthyS (extract_product_details s).imageUrl then (extract_product_details s).imageUrl
       else p.image)) ∧
    ((mergeSearch u (extract_product_details s) p).sku =
      (if truthyS (extract_product_details s).sku then (extract_product_details s).sku
       else p.sku)) ∧
    ((mergeSearch u (extract_product_details s) p).availability =
      (if truthyS (some (extract_product_details s).availability)
       then some (extract_product_details s).availability else p.availability)) ∧
    ((mergeSearch u (extract_product_details s) p).description =
      (if truthyS (extract_product_details s).description
       then (extract_product_details s).description else p.description)) ∧
    ((mergeListing u (extract_product_details s) p).name =
      (if truthyS (extract_product_details s).name then (extract_product_details s).name
       else some p.name)) ∧
    ((mergeListing u (extract_product_details s) p).price =
      (if truthyS (extract_product_details s).price then (extract_product_details s).price
       else p.price)) ∧
    ((mergeListing u (extract_product_details s) p).priceNumeric =
      (if truthyQ (extract_product_details s).priceNumeric
       then (extract_product_details s).priceNumeric else parse_priceO p.price)) ∧
    ((mergeListing u (extract_product_details s) p).imageUrl =
      (if truthyS (extract_product_details s).imageUrl then (extract_product_details s).imageUrl
       else p.image)) ∧
    ((mergeListing u (extract_product_details s) p).availability =
      (if truthyS (some (extract_product_details s).availability)
       then some (extract_product_details s).availability else p.availability)) ∧
    ((mergeListing u (extract_product_details s) p).sku = (extract_product_details s).sku) ∧
    ((mergeListing u (extract_product_details s) p).description =
      (extract_product_details s).description) := by
  have hav : truthyS (some (extract_product_details s).availability) = true := by
    have h := epd_availability_ne s
    simp only [truthyS, Bool.not_eq_true']
    cases hx : (extract_product_details s).availability with
    | nil => exact absurd hx h
    | cons a r => rfl
  refine ⟨name_rule _ _, rfl, rfl, rfl, rfl, ?_, rfl, name_rule _ _, rfl, rfl, rfl, ?_, rfl, rfl⟩
  · rw [if_pos hav]; rfl
  · rw [if_pos hav]; rfl

/-- C2: the emitted-record count of any run never exceeds the quota;
once the count has reached the quota the search candidate loop and the
search pagination loop issue no further work (they return the state
unchanged, so in particular no detail fetch); and concretely, with
quota 2 and a search page yielding five candidates, exactly two records
are emitted, the detail-fetch trace holds exactly the first two
candidate URLs, and no fetch is attempted for the third. -/
theorem claim_C2 :
    (∀ (env : Env) (qs us : List Str) (max fuel : ℕ),
        (runMain env qs us max fuel).emitted.length ≤ max) ∧
    (∀ (env : Env) (max : ℕ) (l : List Candidate) (st : CrawlState),
        st.count ≥ max → searchCandidates env max l st = st) ∧
    (∀ (env : Env) (q : Str) (max fuel page : ℕ) (st : CrawlState),
        st.count ≥ max → searchLoop env q max fuel page st = st) ∧
    ((runMain envC2 [cs ("coins")] [] 2 5).emitted.length = 2 ∧
      (runMain envC2 [cs ("coins")] [] 2 5).detailFetches =
        [cs ("https://www.silver.com/c1"), cs ("https://www.silver.com/c2")] ∧
      cs ("https://www.silver.com/c3") ∉ (runMain envC2 [cs ("coins")] [] 2 5).detailFetches) := by
  refine ⟨?_, searchCandidates_frozen, searchLoop_frozen, by decide, by decide, by decide⟩
  intro env qs us max fuel
  have h1 := (runMain_ok env qs us max fuel).1
  have h2 := runMain_count_le env qs us max fuel
  omega

theorem claim_C2_witness :
    searchCandidates envC2 0 [candN 1] initState = initState ∧
    searchLoop envC2 (cs ("q")) 0 3 1 initState = initState :=
  ⟨claim_C2.2.1 envC2 0 [candN 1] initState (by decide),
   claim_C2.2.2.1 envC2 (cs ("q")) 0 3 1 initState (by decide)⟩

/-- C3: in any run, no two emitted records share the same normalized
URL (trailing slashes stripped); concretely, two start URLs differing
only by a trailing slash yield exactly one record, and a product
reached once through search and once through a listing yields exactly
one record. -/
theorem claim_C3 :
    (∀ (env : Env) (qs us : List Str) (max fuel : ℕ),
        ((runMain env qs us max fuel).emitted.map (fun r => rstripSlash r.url)).Nodup) ∧
    ((runMain envC3 []
        [cs ("https://www.silver.com/1-oz-silver-eagle"),
         cs ("https://www.silver.com/1-oz-silver-eagle/")] 10 5).emitted.map (fun r => r.url) =
      [cs ("https://www.silver.com/1-oz-silver-eagle")]) ∧
    ((runMain envC3b [cs ("q")] [cs ("https://www.silver.com/silver-bars/")] 10 5).emitted.map
        (fun r => r.url) = [cs ("https://www.silver.com/prod-x")]) := by
  refine ⟨?_, by decide, by decide⟩
  intro env qs us max fuel
  obtain ⟨_, h2, h3⟩ := runMain_ok env qs us max fuel
  have he : (runMain env qs us max fuel).emitted.map (fun r => rstripSlash r.url) =
      (runMain env qs us max fuel).emitted.map (fun r => r.url) :=
    List.map_congr_left (fun r hr => (h3 r hr).2)
  rw [he]
  exact h2

/-- C4 (counterexample): the count does not always equal the number of
records emitted: in a listing task whose sole candidate's detail fetch
raises a transport error, `products_scraped` is incremented (the
increment sits outside the `try`) while nothing is pushed — count 1,
zero records. -/
theorem claim_C4_counterexample :
    (runMain envC4 [] [cs ("https://www.silver.com/silver-coins/")] 10 5).count = 1 ∧
    (runMain envC4 [] [cs ("https://www.silver.com/silver-coins/")] 10 5).emitted = [] ∧
    (runMain envC4 [] [cs ("https://www.silver.com/silver-coins/")] 10 5).count ≠
      (runMain envC4 [] [cs ("https://www.silver.com/silver-coins/")] 10 5).emitted.length := by
  decide

/-- C4 (amended): at the end of any run the count equals the number of
emitted records plus the number of listing-task candidates whose detail
fetch raised a transport error; on the search and product paths, and on
the listing non-200 path, the count increments exactly with an
emission. -/
theorem claim_C4_amended (env : Env) (qs us : List Str) (max fuel : ℕ) :
    (runMain env qs us max fuel).count =
      (runMain env qs us max fuel).emitted.length +
        (runMain env qs us max fuel).failedListingDetails :=
  (runMain_ok env qs us max fuel).1

/-- C5 (counterexample): the walker itself does not return absent on a
self-link: with a next-page anchor resolving to the current URL,
`get_next_page_url` returns that URL, not `None` (the self-link guard
lives in `scrape_listing`, line 438). -/
theorem claim_C5_counterexample :
    get_next_page_url pgSelf (cs ("https://www.silver.com/silver-coins/")) =
      some (cs ("https://www.silver.com/silver-coins/")) ∧
    get_next_page_url pgSelf (cs ("https://www.silver.com/silver-coins/")) ≠ none := by
  decide

/-- C5 (amended): the walker returns absent exactly when no next-page
anchor matches the known selectors; when the anchor's href resolves to
the current URL the walker returns that URL, and it is the listing
loop's own guard that then ends the task after processing the current
page — the page is fetched exactly once, and no further listing fetch
is issued regardless of remaining fuel. -/
theorem claim_C5_amended :
    (∀ (pg : ListingSoup) (base : Str),
        get_next_page_url pg base = none ↔ pg.nextAnchorHref = none) ∧
    (∀ (env : Env) (max fuel : ℕ) (cur : Str) (st : CrawlState) (pg : ListingSoup),
        cur.isEmpty = false → st.count < max → env.listing cur = .ok pg →
        get_next_page_url pg cur = some cur →
        listingLoop env max (fuel + 1) cur st =
          listingCandidates env max (extract_listing_products pg.cards cur)
            { st with listingFetches := st.listingFetches ++ [cur] } ∧
        (listingLoop env max (fuel + 1) cur st).listingFetches =
          st.listingFetches ++ [cur]) := by
  constructor
  · intro pg base
    exact Option.map_eq_none'
  · intro env max fuel cur st pg hne hq hls hself
    have heq := listingLoop_selfLink env max fuel cur st pg hne hq hls hself
    refine ⟨heq, ?_⟩
    rw [heq, listingCandidates_lf]

theorem claim_C5_witness :
    listingLoop envC5 10 (3 + 1) (cs ("https://www.silver.com/silver-coins/")) initState =
      listingCandidates envC5 10
        (extract_listing_products pgSelf.cards (cs ("https://www.silver.com/silver-coins/")))
        { initState with listingFetches :=
            initState.listingFetches ++ [cs ("https://www.silver.com/silver-coins/")] } ∧
    (listingLoop envC5 10 (3 + 1) (cs ("https://www.silver.com/silver-coins/"))
        initState).listingFetches =
      initState.listingFetches ++ [cs ("https://www.silver.com/silver-coins/")] :=
  claim_C5_amended.2 envC5 10 3 (cs ("https://www.silver.com/silver-coins/")) initState pgSelf
    (by decide) (by decide) rfl (by decide)

/-- C6 (counterexample): the page size is not fixed throughout a search
task: with quota 3, the first request uses size `min(48, 3) = 3` and,
after two candidates are scraped, the second uses `min(48, 1) = 1`. -/
theorem claim_C6_counterexample :
    ((runMain envC6 [cs ("x")] [] 3 9).searchRequests).map (fun r => r.size) = [3, 1] ∧
    (3 : ℕ) ≠ 1 := by decide

/-- C6 (amended): in any search task the page cursor advances by
exactly one per request starting from page 1, every request's page size
is `min(48, quota - count-at-request-time)` recomputed per request (not
fixed), and the loop stops requesting exactly when the quota is reached
(the loop is the identity) or a page comes back empty (one final
request is recorded, then the loop returns), continuing otherwise. -/
theorem claim_C6_amended :
    (∀ (env : Env) (q : Str) (max fuel page : ℕ) (st : CrawlState),
        ∃ nw : List SearchReq,
          (searchLoop env q max fuel page st).searchRequests = st.searchRequests ++ nw ∧
          nw.map (fun r => r.page) = List.range' page nw.length ∧
          ∀ r ∈ nw, r.size = min 48 (max - r.countBefore) ∧ r.countBefore < max) ∧
    (∀ (env : Env) (q : Str) (max fuel page : ℕ) (st : CrawlState),
        st.count ≥ max → searchLoop env q max fuel page st = st) ∧
    (∀ (env : Env) (q : Str) (max n page : ℕ) (st : CrawlState),
        st.count < max →
        (env.searchPage q (min 48 (max - st.count)) page).isEmpty = true →
        searchLoop env q max (n + 1) page st =
          { st with searchRequests := st.searchRequests ++
            [{ page := page, size := min 48 (max - st.count), countBefore := st.count }] }) ∧
    (∀ (env : Env) (q : Str) (max n page : ℕ) (st : CrawlState),
        st.count < max →
        ¬(env.searchPage q (min 48 (max - st.count)) page).isEmpty = true →
        searchLoop env q max (n + 1) page st =
          searchLoop env q max n (page + 1)
            (searchCandidates env max (env.searchPage q (min 48 (max - st.count)) page)
              { st with searchRequests := st.searchRequests ++
                [{ page := page, size := min 48 (max - st.count), countBefore := st.count }] })) := by
  exact ⟨searchLoop_trace, searchLoop_frozen, searchLoop_stop_empty, searchLoop_continue⟩

theorem claim_C6_witness :
    searchLoop envC6 (cs ("x")) 3 (8 + 1) 2
        { initState with count := 2 } =
      { { initState with count := 2 } with searchRequests :=
          ({ initState with count := 2 } : CrawlState).searchRequests ++
            [{ page := 2, size := min 48 (3 - 2), countBefore := 2 }] } :=
  claim_C6_amended.2.2.1 envC6 (cs ("x")) 3 8 2 { initState with count := 2 }
    (by decide) (by decide)

/-- C7 (counterexample): `https://www.silver.com/silver-coins/`
satisfies the claim's premise — on the target host, exactly one
non-empty dot-free path segment, not in the denylist of non-catalog
segments — yet it classifies as a listing, not a product:
`silver-coins` is one of the code's catalog root segments, a condition
the claim omits. -/
theorem claim_C7_counterexample :
    c7premise (cs ("https://www.silver.com/silver-coins/")) = true ∧
    classify (cs ("https://www.silver.com/silver-coins/")) = ClassifiedInput.listing ∧
    classify (cs ("https://www.silver.com/silver-coins/")) ≠ ClassifiedInput.product := by
  decide

/-- C7 (amended): a URL of the form
`https://www.silver.com/<seg>/` classifies as ProductURL whenever the
segment is non-empty, contains none of `/ ? # & .`, does not start with
`search` (which would trip the raw `/search` substring test), is not —
after lower-casing — a catalog root segment, `page`, or a string
containing `product-category`, and is not equal to any denylist word
(`about`, `contact`, …, `wp-content`). -/
theorem claim_C7_amended (seg : Str) (h0 : seg ≠ [])
    (h1 : ∀ c ∈ seg, slugChar c = true)
    (h2 : startsW (cs ("search")) seg = false)
    (h3 : topCategories.contains (lowerStr seg) = false)
    (h4 : lowerStr seg ≠ cs ("page"))
    (h5 : hasSub (cs ("product-category")) (lowerStr seg) = false)
    (h6 : ∀ w ∈ skipWords, seg ≠ w) :
    classify (cs ("https://www.silver.com/") ++ (seg ++ ['/'])) = .product :=
  classify_slug seg h0 h1 h2 h3 h4 h5 h6

theorem claim_C7_witness :
    classify (cs ("https://www.silver.com/") ++ (cs ("1-oz-silver-eagle") ++ ['/'])) =
      ClassifiedInput.product :=
  claim_C7_amended (cs ("1-oz-silver-eagle")) (by decide) (by decide) (by decide) (by decide)
    (by decide) (by decide) (by decide)

/-- C8: a search candidate whose detail fetch returns a non-success
status or raises a transport error is still emitted, as the record
built from the API candidate alone (`apiFallback`: its name, price,
priceNumeric, image, sku, availability, description). -/
theorem claim_C8 (env : Env) (max : ℕ) (p : Candidate) (rest : List Candidate)
    (st : CrawlState) (h1 : st.count < max)
    (h2 : rstripSlash p.url ∉ st.scrapedUrls)
    (h3 : (∃ code, env.detail (rstripSlash p.url) = .httpError code) ∨
          env.detail (rstripSlash p.url) = .transportError) :
    apiFallback (rstripSlash p.url) p ∈ (searchCandidates env max (p :: rest) st).emitted := by
  rw [searchCandidates, if_neg (by omega), if_neg h2]
  have hmem : ∀ st' : CrawlState, apiFallback (rstripSlash p.url) p ∈ st'.emitted →
      apiFallback (rstripSlash p.url) p ∈ (searchCandidates env max rest st').emitted := by
    intro st' hm
    obtain ⟨_, l, hl⟩ := searchCandidates_ext env max rest st'
    rw [hl]
    exact List.mem_append_left _ hm
  rcases h3 with ⟨code, hc⟩ | hc
  · rw [hc]
    exact hmem _ (by simp [pushRec])
  · rw [hc]
    exact hmem _ (by simp [pushRec])

theorem claim_C8_witness :
    apiFallback (rstripSlash (candN 1).url) (candN 1) ∈
      (searchCandidates envC2 2 [candN 1] initState).emitted :=
  claim_C8 envC2 2 (candN 1) [] initState (by decide) (by decide) (Or.inl ⟨500, rfl⟩)

/-- C9: `parse_price` is total by construction (it returns an option and
models the `ValueError` path as `none`); on
`"$1,234.50 shipping included"` it yields `1234.50`, on
`"Call for price"` it yields absent; and in general it returns absent
exactly when the input is empty, no currency-amount pattern matches, or
the matched group is malformed (fails to parse as a decimal after
stripping separators) — otherwise the first match's value. -/
theorem claim_C9 :
    parse_price (cs ("$1,234.50 shipping included")) = some (1234.5 : ℚ) ∧
    parse_price (cs ("Call for price")) = none ∧
    (∀ l : Str, parse_price l = none ↔
      (l = [] ∨ firstAmount l = none ∨
        ∃ g, firstAmount l = some g ∧ pyFloat (g.filter (fun c => c != ',')) = none)) := by
  refine ⟨?_, by decide, ?_⟩
  · have key : parse_price (cs ("$1,234.50 shipping included")) =
        some ((natOfDigits (cs ("1234")) : ℚ) +
          (natOfDigits (cs ("50")) : ℚ) / 10 ^ (cs ("50")).length) := rfl
    rw [key, show natOfDigits (cs ("1234")) = 1234 from rfl,
      show natOfDigits (cs ("50")) = 50 from rfl, show (cs ("50")).length = 2 from rfl]
    norm_num
  intro l
  constructor
  · intro h
    unfold parse_price at h
    by_cases he : l.isEmpty
    · exact Or.inl (List.isEmpty_iff.mp he)
    · rw [if_neg he] at h
      cases hf : firstAmount l with
      | none => exact Or.inr (Or.inl rfl)
      | some g =>
        refine Or.inr (Or.inr ⟨g, rfl, ?_⟩)
        rw [hf] at h
        exact h
  · intro h
    unfold parse_price
    rcases h with rfl | hf | ⟨g, hg, hp⟩
    · rfl
    · by_cases he : l.isEmpty
      · rw [if_pos he]
      · rw [if_neg he, hf]
    · by_cases he : l.isEmpty
      · rw [if_pos he]
      · rw [if_neg he, hg]
        exact hp

theorem ite_some_inj {α : Type} {P : Prop} [Decidable P] {a c : α}
    (h : (if P then some a else none) = some c) : c = a := by
  by_cases hp : P
  · rw [if_pos hp] at h
    exact (Option.some.inj h).symm
  · rw [if_neg hp] at h
    cases h

/-- C10: a SearchSpring item whose `price` and `sale_price` are both 0
produces a candidate with absent price display and absent priceNumeric:
a numeric zero price is treated exactly like a missing one (Python
truthiness in `price_val or …` and `if price_val`). -/
theorem claim_C10 (r : SSItem) (c : Candidate)
    (h1 : r.price = some 0) (h2 : r.sale_price = some 0)
    (h3 : searchItemRecord r = some c) :
    c.price = none ∧ c.priceNumeric = none := by
  unfold searchItemRecord at h3
  rw [h1, h2] at h3
  have ht : truthyQ (some (0 : ℚ)) = false := by decide
  simp only [ht, Bool.false_eq_true, if_false] at h3
  have hc := ite_some_inj h3
  rw [hc]
  exact ⟨rfl, rfl⟩

theorem claim_C10_witness : cand0.price = none ∧ cand0.priceNumeric = none :=
  claim_C10 ssItem0 cand0 rfl rfl (by decide)
